import Mathlib

/-!
# Verification of the xv6-riscv teaching network stack

Shallow embedding of `kernel/net.c` and `kernel/e1000.c`: the per-port
delivery ring buffers, the IP checksum, the frame dispatcher
(`net_rx` / `arp_rx` / `ip_rx`), the receive system call, and the e1000
receive-reclaim loop.  Machine integers are modelled as `Nat` / `Int`
with explicit reductions modulo `2 ^ 32` where the C code relies on
`uint32` wraparound.  Frame buffers are modelled as lists of byte
values, and a buffer's identity (its `char *` address) as a `Nat` tag,
so that the "exactly one kfree per buffer" accounting can be stated.

Header layout constants (`struct eth` = 14 bytes, `struct ip` = 20
bytes, `struct udp` = 8 bytes, `struct arp` = 28 bytes, and
`MAKE_IP_ADDR`) are modelled from the spec, since `kernel/net.h` is not
part of the source tree; all function bodies are translated from
`kernel/net.c` / `kernel/e1000.c`.
-/

/-! ## Byte-level utilities

Inbound frames are lists of byte values (each `< 256`).  A 16-bit field
is loaded by the C code as a little-endian `uint16` and converted with
`ntohs`, which is the same as reading the two bytes big-endian; likewise
`ntohl` for 32-bit fields.  Reads beyond the list model reads of
unspecified adjacent memory and yield 0. -/

/-- Big-endian 16-bit read at byte offset `i`: the value of
`ntohs(*(uint16*)(buf + i))` on a little-endian machine. -/
def ntohs2 (bytes : List Nat) (i : Nat) : Nat :=
  256 * bytes.getD i 0 + bytes.getD (i + 1) 0

/-- Big-endian 32-bit read at byte offset `i`: the value of
`ntohl(*(uint32*)(buf + i))` on a little-endian machine. -/
def ntohl4 (bytes : List Nat) (i : Nat) : Nat :=
  16777216 * bytes.getD i 0 + 65536 * bytes.getD (i + 1) 0 +
    256 * bytes.getD (i + 2) 0 + bytes.getD (i + 3) 0

/-- `n` consecutive bytes of memory starting at offset `i` (a
`memmove` source operand); bytes beyond the list are unspecified
adjacent memory, modelled as 0. -/
def memSub (bytes : List Nat) (i n : Nat) : List Nat :=
  (List.range n).map (fun k => bytes.getD (i + k) 0)

/-! ## The IP header checksum (`in_cksum`, net.c lines 546-577)

The C routine walks the buffer as little-endian 16-bit words
accumulating into a 32-bit `unsigned int`, zero-extends an odd trailing
byte (it is stored into the low byte of a zeroed `unsigned short`),
folds the carries out of the top 16 bits back in twice, and returns the
bitwise complement truncated to 16 bits. -/

/-- The word-summation loop of `in_cksum`: `sum` is the 32-bit
accumulator (reduced mod `2 ^ 32` as the C `unsigned int` is), words are
little-endian byte pairs, an odd trailing byte is zero-extended. -/
def cksumWords : List Nat → Nat → Nat
  | a :: b :: t, sum => cksumWords t ((sum + (a + 256 * b)) % 2 ^ 32)
  | [b], sum => (sum + b) % 2 ^ 32
  | [], sum => sum

/-- The value of `sum` after the two carry-fold lines of `in_cksum`:
`sum = (sum & 0xffff) + (sum >> 16); sum += (sum >> 16);` on the 32-bit
accumulator. -/
def cksumFold (sum : Nat) : Nat :=
  (sum % 65536 + sum / 65536 + (sum % 65536 + sum / 65536) / 65536) % 2 ^ 32

/-- The folded 16-bit checksum sum of a byte sequence: the low 16 bits
of the accumulator after both folds.  `in_cksum` returns the complement
of this; a verifying re-summation checks it equals `0xFFFF`. -/
def cksumFolded (bytes : List Nat) : Nat :=
  cksumFold (cksumWords bytes 0) % 65536

/-- `in_cksum(addr, len)`: the one's-complement checksum returned by the
C routine, i.e. the 16-bit truncation of `~sum`. -/
def in_cksum (bytes : List Nat) : Nat :=
  65535 - cksumFolded bytes

/-- Pure (unbounded) word sum, used to reason about `cksumWords` when
the accumulator cannot wrap. -/
def wsum : List Nat → Nat
  | a :: b :: t => (a + 256 * b) + wsum t
  | [b] => b
  | [] => 0

/-! ## The per-port delivery ring buffer (net.c lines 357-403)

`struct bind_ring_buffer` holds a 16-slot array of packets and two
monotonically increasing `uint32` cursors.  The queue array is modelled
as a function on `Int` offsets, so that an out-of-range index computed
by `ring_mod` (which is possible: the `uint32` cursor is passed to an
`int` parameter, see `C2_ring_mod_out_of_bounds`) denotes memory
outside the 16-slot array; the valid slots are offsets `0..15`. -/

/-- `MAX_QUEUE_LEN`. -/
def MAX_QUEUE_LEN : Nat := 16

/-- C conversion of a `uint32` value to `int`: two's-complement wrap,
as gcc (the xv6-riscv toolchain) defines out-of-range
unsigned-to-signed conversion. -/
def toInt32 (n : Nat) : Int :=
  if n % 2 ^ 32 < 2 ^ 31 then ((n % 2 ^ 32 : Nat) : Int)
  else ((n % 2 ^ 32 : Nat) : Int) - 2 ^ 32

/-- `int ring_mod(int num) { return num % MAX_QUEUE_LEN; }` — C `%` on
`int` operands is truncated remainder (`Int.tmod`), negative for
negative `num`. -/
def ring_mod (num : Int) : Int := Int.tmod num 16

/-- The array index `ring_mod(ring->write++)` / `ring_mod(ring->read++)`
computed from a `uint32` cursor value `n`: the cursor is converted to
the `int` parameter first. -/
def ringIdx (n : Nat) : Int := ring_mod (toInt32 n)

/-- `struct bind_ring_buffer` (without its spinlock).  `read`/`write`
are the `uint32` cursors, kept in `[0, 2 ^ 32)`. -/
structure BindRing (α : Type) where
  queue : Int → α
  read : Nat
  write : Nat
  dropped : Int
  dport : Int

/-- `ring_init` combined with the `dport` assignment done by
`next_free_ring`: queue array `memset` to zero (`dflt`), cursors and
drop counter zeroed. -/
def mkRing {α : Type} (dflt : α) (d : Int) : BindRing α :=
  ⟨fun _ => dflt, 0, 0, 0, d⟩

/-- `ring_empty`. -/
def ring_empty {α : Type} (r : BindRing α) : Bool := r.write == r.read

/-- `uint32` subtraction. -/
def usub32 (a b : Nat) : Nat := (a % 2 ^ 32 + 2 ^ 32 - b % 2 ^ 32) % 2 ^ 32

/-- `ring_size`: the `uint32` difference `write - read`, converted to
the `int` return type. -/
def ring_size {α : Type} (r : BindRing α) : Int := toInt32 (usub32 r.write r.read)

/-- `ring_full`. -/
def ring_full {α : Type} (r : BindRing α) : Bool := ring_size r == 16

/-- `ring_enqueue`: when full, bump the drop counter and return 1;
otherwise store at `queue[ring_mod(write++)]` and return 0. -/
def ring_enqueue {α : Type} (r : BindRing α) (p : α) : BindRing α × Nat :=
  if ring_full r then ({ r with dropped := r.dropped + 1 }, 1)
  else ({ r with queue := Function.update r.queue (ringIdx r.write) p,
                 write := (r.write + 1) % 2 ^ 32 }, 0)

/-- `ring_dequeue`: `none` models the C result code 1 on an empty ring
(no `*packet` written); otherwise the entry at
`queue[ring_mod(read++)]` is handed out. -/
def ring_dequeue {α : Type} (r : BindRing α) : BindRing α × Option α :=
  if ring_empty r then (r, none)
  else ({ r with read := (r.read + 1) % 2 ^ 32 },
    some (r.queue (ringIdx r.read)))

/-- The sane cursor regime: at most 16 outstanding entries and cursors
still below `2 ^ 31` (beyond which the signed conversion in `ring_mod`
breaks the index arithmetic, see C2). -/
def BindRingWf {α : Type} (r : BindRing α) : Prop :=
  r.read ≤ r.write ∧ r.write - r.read ≤ 16 ∧ r.write < 2 ^ 31

/-- The live (enqueued, not yet dequeued) entries, oldest first. -/
def contents {α : Type} (r : BindRing α) : List α :=
  (List.range (r.write - r.read)).map
    (fun k => r.queue (((r.read + k) % 16 : Nat) : Int))

/-- Iterated `ring_enqueue` (one call per arriving packet), collecting
the C result codes in order. -/
def enqueueAll {α : Type} : BindRing α → List α → BindRing α × List Nat
  | r, [] => (r, [])
  | r, p :: ps =>
    let rc := ring_enqueue r p
    let rest := enqueueAll rc.1 ps
    (rest.1, rc.2 :: rest.2)

/-- Iterated `ring_dequeue` (one call per consumer read), collecting
the handed-out entries in order; stops early on an empty ring. -/
def dequeueN {α : Type} : BindRing α → Nat → BindRing α × List α
  | r, 0 => (r, [])
  | r, n + 1 =>
    match ring_dequeue r with
    | (r', some p) =>
      let rest := dequeueN r' n
      (rest.1, p :: rest.2)
    | (r', none) => (r', [])

/-! ## The e1000 receive path (e1000.c lines 61-67 and 104-145)

The receive ring has 16 descriptors.  The status bits used by the
driver are `DD` (descriptor done) and `EOP` (end of packet); their
mask values are from the device's published register map
(`e1000_dev.h` is not in the source tree; the bits are the standard
`E1000_RXD_STAT_DD = 0x01`, `E1000_RXD_STAT_EOP = 0x02`). -/

/-- `struct rx_desc`: buffer address, length, status bit-field. -/
structure RxDesc where
  addr : Nat
  length : Nat
  status : Nat

/-- `E1000_RXD_STAT_DD`, descriptor-done status bit. -/
def E1000_RXD_STAT_DD : Nat := 1

/-- `E1000_RXD_STAT_EOP`, end-of-packet status bit. -/
def E1000_RXD_STAT_EOP : Nat := 2

/-- Driver receive state: the `RDT` tail register, the 16 descriptors,
the number of `kalloc` calls made so far (indexing the allocator
oracle), and the frames handed up to `net_rx` as `(addr, length)`
pairs. -/
structure RxState where
  rdt : Nat
  descs : Fin 16 → RxDesc
  allocd : Nat
  received : List (Nat × Nat)

/-- Outcome of one `e1000_recv` loop iteration: `stop` is the `break`
on a not-done descriptor, `fatal` the `panic` on a done descriptor
without EOP, `processed` a reclaimed frame. -/
inductive RxStep where
  | stop
  | fatal
  | processed
deriving DecidableEq

/-- The body of the `e1000_recv` loop: inspect
`rx_ring[(RDT + 1) % 16]`; stop if `DD` is clear; panic if `EOP` is
clear; otherwise hand `(addr, length)` to `net_rx`, install a fresh
allocator page into the descriptor unconditionally (no null check),
clear the status, and publish the tail register at this index. -/
def e1000_recv_step (alloc : Nat → Nat) (s : RxState) : RxState × RxStep :=
  let idx : Fin 16 := ⟨(s.rdt + 1) % 16, Nat.mod_lt _ (by norm_num)⟩
  let d := s.descs idx
  if d.status &&& E1000_RXD_STAT_DD ≠ E1000_RXD_STAT_DD then (s, RxStep.stop)
  else if d.status &&& E1000_RXD_STAT_EOP = 0 then (s, RxStep.fatal)
  else
    ({ rdt := idx.val,
       descs := Function.update s.descs idx { d with addr := alloc s.allocd, status := 0 },
       allocd := s.allocd + 1,
       received := s.received ++ [(d.addr, d.length)] }, RxStep.processed)

/-- The `for (i = 0; i < RX_RING_SIZE; ++i)` reclaim loop of
`e1000_recv`, with the loop bound as fuel: returns the final state,
the number of descriptors processed, and whether the fatal
multi-descriptor condition was hit. -/
def e1000_recv_go (alloc : Nat → Nat) : Nat → RxState → RxState × Nat × Bool
  | 0, s => (s, 0, false)
  | fuel + 1, s =>
    match e1000_recv_step alloc s with
    | (s', RxStep.processed) =>
      let rest := e1000_recv_go alloc fuel s'
      (rest.1, rest.2.1 + 1, rest.2.2)
    | (s', RxStep.stop) => (s', 0, false)
    | (s', RxStep.fatal) => (s', 0, true)

/-- `e1000_recv` (one invocation of the reclaim procedure). -/
def e1000_recv (alloc : Nat → Nat) (s : RxState) : RxState × Nat × Bool :=
  e1000_recv_go alloc 16 s

/-- The descriptor at offset `k` past the current tail — the one the
`k`-th loop iteration of `e1000_recv` inspects. -/
def descAfterTail (s : RxState) (k : Nat) : RxDesc :=
  s.descs ⟨(s.rdt + 1 + k) % 16, Nat.mod_lt _ (by norm_num)⟩

/-- The receive-ring buffer-allocation loop of `e1000_init` (e1000.c
lines 62-67), iterating `i` upward with the remaining count as fuel:
`kalloc` each buffer, and `panic` (`none`) as soon as the allocator
returns null. -/
def e1000_init_rx_go (alloc : Nat → Nat) (i : Nat) : Nat → Option (List Nat)
  | 0 => some []
  | n + 1 =>
    if alloc i = 0 then none
    else
      match e1000_init_rx_go alloc (i + 1) n with
      | none => none
      | some rest => some (alloc i :: rest)

/-- The receive-buffer part of `e1000_init`: the 16 buffer addresses
installed in the receive ring, or `none` for the `panic` on allocation
failure. -/
def e1000_init_rx (alloc : Nat → Nat) : Option (List Nat) :=
  e1000_init_rx_go alloc 0 16

/-! ## The dispatcher, ARP, IP delivery and `sys_recv` (net.c)

Frame buffers are byte lists; a buffer's identity (its `char *`
address for `kfree` accounting) is a `Nat` tag carried separately.
Wire layouts: Ethernet header 14 bytes (type at offset 12), IP header
20 bytes at offset 14, ARP body 28 bytes at offset 14, UDP header 8
bytes.  The header sizes, `ETHTYPE_*` values and `MAKE_IP_ADDR` are
modelled from the spec (§6 wire formats), since `kernel/net.h` is not
in the source tree. -/

/-- `ETHTYPE_IP`. -/
def ETHTYPE_IP : Nat := 0x0800

/-- `ETHTYPE_ARP`. -/
def ETHTYPE_ARP : Nat := 0x0806

/-- `sizeof(struct eth)`. -/
def ETH_SIZE : Nat := 14

/-- `sizeof(struct ip)`. -/
def IP_SIZE : Nat := 20

/-- `sizeof(struct udp)` (source port, destination port, length,
checksum — two bytes each, per the spec's wire format). -/
def UDP_SIZE : Nat := 8

/-- `sizeof(struct arp)`. -/
def ARP_SIZE : Nat := 28

/-- xv6's fixed MAC address (net.c line 343). -/
def local_mac : List Nat := [0x52, 0x54, 0x00, 0x12, 0x34, 0x56]

/-- `MAKE_IP_ADDR(10, 0, 2, 15)` (net.c line 344; the macro packs the
four octets big-endian into a `uint32`, modelled from the spec). -/
def local_ip : Nat := 10 * 16777216 + 0 * 65536 + 2 * 256 + 15

/-- `struct packet`: the queued buffer pointer (as an id), source UDP
port and frame length. -/
structure Packet where
  buf : Nat
  sport : Int
  len : Int
deriving DecidableEq

/-- `RINGS_NUM`. -/
def RINGS_NUM : Nat := 100

/-- Kernel network state: the fixed slot table (`rings`), `arp_rx`'s
`seen_arp` static, the multiset (list) of buffer ids passed to
`kfree`, the frames handed to `e1000_transmit`, the ghost list of
buffer ids handed to `net_rx`, the frame bytes DMA'd into each buffer,
and whether a `panic` has halted the kernel. -/
structure NetState where
  rings : List (BindRing Packet)
  arpSeen : Bool
  freed : List Nat
  transmitted : List (List Nat)
  delivered : List Nat
  mem : Nat → List Nat
  panicked : Bool

/-- The kernel's initial network state: the static all-zero `rings`
table. -/
def initNet : NetState :=
  ⟨List.replicate RINGS_NUM (mkRing ⟨0, 0, 0⟩ 0), false, [], [], [], fun _ => [], false⟩

/-- `find_ring(port)`: linear scan for the first slot whose `dport`
field equals `port`; `none` models the null return. -/
def findRingIdx : List (BindRing Packet) → Int → Option Nat
  | [], _ => none
  | r :: rs, port =>
    if r.dport = port then some 0 else (findRingIdx rs port).map (· + 1)

/-- The scan of `next_free_ring(port)`: the first slot with
`dport == 0`. -/
def nextFreeIdx : List (BindRing Packet) → Option Nat
  | [] => none
  | r :: rs => if r.dport = 0 then some 0 else (nextFreeIdx rs).map (· + 1)

/-- The ARP reply frame `arp_rx` synthesizes (net.c lines 702-721),
laid out byte for byte: Ethernet destination = query source MAC
(inbound bytes 6-11), Ethernet source = the local MAC, type ARP
(0x0806); hardware type 1, protocol type IP (0x0800), hardware/
protocol lengths 6 and 4, operation 2 (reply); sender hardware/IP =
local MAC and local IP (stored big-endian by `htonl`); target
hardware/IP = query source MAC and the query sender IP (inbound bytes
28-31) copied raw. -/
def mkArpReply (inb : List Nat) : List Nat :=
  [inb.getD 6 0, inb.getD 7 0, inb.getD 8 0,
     inb.getD 9 0, inb.getD 10 0, inb.getD 11 0,
   0x52, 0x54, 0x00, 0x12, 0x34, 0x56,
   0x08, 0x06,
   0x00, 0x01,
   0x08, 0x00,
   6, 4,
   0x00, 0x02,
   0x52, 0x54, 0x00, 0x12, 0x34, 0x56,
   10, 0, 2, 15,
   inb.getD 6 0, inb.getD 7 0, inb.getD 8 0,
     inb.getD 9 0, inb.getD 10 0, inb.getD 11 0,
   inb.getD 28 0, inb.getD 29 0, inb.getD 30 0, inb.getD 31 0]

/-- `arp_rx` (net.c lines 687-726): every frame after the first is
freed and dropped; the first synthesizes and transmits the single ARP
reply, then the inbound frame is freed.  (The reply-buffer `kalloc`
failure is a `panic` in the source; the model assumes that allocation
succeeds.) -/
def arp_rx (s : NetState) (id : Nat) (inb : List Nat) : NetState :=
  if s.arpSeen then { s with freed := s.freed ++ [id] }
  else { s with arpSeen := true,
                transmitted := s.transmitted ++ [mkArpReply inb],
                freed := s.freed ++ [id] }

/-- The UDP destination port `ip_rx` uses for the delivery-queue
lookup: read at `(struct udp *)(ip + 1)`, i.e. a fixed 20-byte IP
header is assumed (net.c line 654), so the port sits at byte offset
`14 + 20 + 2 = 36`. -/
def ipRxLookupDport (bytes : List Nat) : Nat := ntohs2 bytes (ETH_SIZE + IP_SIZE + 2)

/-- The UDP source port `ip_rx` stores in the queue entry, at the same
fixed offset assumption. -/
def ipRxSport (bytes : List Nat) : Nat := ntohs2 bytes (ETH_SIZE + IP_SIZE)

/-- Modelled from the spec (§4.3 parsing): the UDP destination-port
offset the IP header-length field dictates — the low nibble of the
version/header-length byte times 4 past the IP header start. -/
def specIhlDport (bytes : List Nat) : Nat :=
  ntohs2 bytes (ETH_SIZE + (bytes.getD ETH_SIZE 0 &&& 0x0F) * 4 + 2)

/-- `ip_rx` (net.c lines 643-678): look up the destination port's
ring; free the buffer if no slot matches; otherwise enqueue
`(buf, sport, len)` and free the buffer if the queue was full.  (The
wakeup of sleepers does not change this state.) -/
def ip_rx (s : NetState) (id : Nat) (bytes : List Nat) (len : Nat) : NetState :=
  match findRingIdx s.rings ((ipRxLookupDport bytes : Nat) : Int) with
  | none => { s with freed := s.freed ++ [id] }
  | some i =>
    let r := s.rings.getD i (mkRing ⟨0, 0, 0⟩ 0)
    let rc := ring_enqueue r ⟨id, (ipRxSport bytes : Int), (len : Int)⟩
    let s' := { s with rings := s.rings.set i rc.1 }
    if rc.2 ≠ 0 then { s' with freed := s'.freed ++ [id] } else s'

/-- `net_rx` (net.c lines 728-742): ARP-typed frames of at least
`sizeof(eth) + sizeof(arp)` bytes go to `arp_rx`; IP-typed frames of
at least `sizeof(eth) + sizeof(ip)` bytes go to `ip_rx`; everything
else is freed immediately. -/
def net_rx (s : NetState) (id : Nat) (bytes : List Nat) (len : Nat) : NetState :=
  if ETH_SIZE + ARP_SIZE ≤ len ∧ ntohs2 bytes 12 = ETHTYPE_ARP then
    arp_rx s id bytes
  else if ETH_SIZE + IP_SIZE ≤ len ∧ ntohs2 bytes 12 = ETHTYPE_IP then
    ip_rx s id bytes len
  else
    { s with freed := s.freed ++ [id] }

/-- `sys_bind` (net.c lines 443-453): `next_free_ring` claims the
first slot with `dport == 0` and sets its port, then `ring_init`
resets the slot; if no slot is free the kernel panics. -/
def sys_bind (s : NetState) (port : Int) : NetState :=
  match nextFreeIdx s.rings with
  | some i => { s with rings := s.rings.set i (mkRing ⟨0, 0, 0⟩ port) }
  | none => { s with panicked := true }

/-- Result of one `sys_recv` activation: `unbound` models the `-1`
return when `find_ring` returns null, `wouldBlock` the `sleep` on an
empty queue (the call blocks and re-checks on wakeup), `ok` a
completed call with its return value and the `copyout` operations
performed, as (destination address, bytes, reported success). -/
inductive RecvRes where
  | unbound
  | wouldBlock
  | ok (ret : Int) (copies : List (Nat × List Nat × Bool))
deriving DecidableEq

/-- Little-endian memory image of the 2 bytes `copyout` reads from
`&packet.sport` (`sizeof(short)`). -/
def le16 (v : Int) : List Nat := [v.toNat % 256, v.toNat % 65536 / 256]

/-- Little-endian memory image of the 4-byte host-order `uint32`
`copyout` reads from `&ipsrc`. -/
def le32 (v : Nat) : List Nat :=
  [v % 256, v / 256 % 256, v / 65536 % 256, v / 16777216 % 256]

/-- `sys_recv` (net.c lines 485-542) after argument marshaling.
`find_ring` failure returns `-1`; an empty ring sleeps.  Otherwise one
packet is dequeued; the source port and the (ntohl'd) source IP are
copied out; the UDP header is found at the IHL-derived byte offset;
the return length is `maxlen` truncated to the UDP length field minus
the UDP header size; the payload is copied out, the frame buffer is
freed, and the truncated length is returned.  The `copyOk` oracle
supplies each `copyout`'s result, which the code never examines. -/
def sys_recv_full (copyOk : Nat → Bool) (s : NetState) (dport : Int)
    (srcaddr sportaddr bufaddr : Nat) (maxlen : Int) : NetState × RecvRes :=
  match findRingIdx s.rings dport with
  | none => (s, RecvRes.unbound)
  | some i =>
    let r := s.rings.getD i (mkRing ⟨0, 0, 0⟩ 0)
    if ring_empty r then (s, RecvRes.wouldBlock)
    else
      let rc := ring_dequeue r
      match rc.2 with
      | none => (s, RecvRes.wouldBlock)
      | some pkt =>
        let bytes := s.mem pkt.buf
        let ihl := (bytes.getD ETH_SIZE 0 &&& 0x0F) * 4
        let ipsrc := ntohl4 bytes (ETH_SIZE + 12)
        let udpOff := ETH_SIZE + ihl
        let udp_len : Int := (ntohs2 bytes (udpOff + 4) : Int) - (UDP_SIZE : Int)
        let retlen : Int := if maxlen > udp_len then udp_len else maxlen
        let payload := (bytes.drop (udpOff + UDP_SIZE)).take retlen.toNat
        ({ s with rings := s.rings.set i rc.1, freed := s.freed ++ [pkt.buf] },
          RecvRes.ok retlen
            [(sportaddr, le16 pkt.sport, copyOk 0),
             (srcaddr, le32 ipsrc, copyOk 1),
             (bufaddr, payload, copyOk 2)])

/-- A driver- or syscall-level event: an inbound frame (fresh buffer
id, DMA'd bytes, descriptor length), a `bind`, or a `recv` on a
port. -/
inductive Ev where
  | rx (id : Nat) (bytes : List Nat) (len : Nat)
  | bind (port : Int)
  | recv (port : Int)

/-- One step of the kernel on an event; after a `panic` the machine
halts.  An inbound frame is DMA'd into its buffer, recorded as
delivered (ghost), and dispatched through `net_rx`. -/
def netStep (s : NetState) (e : Ev) : NetState :=
  if s.panicked then s
  else
    match e with
    | Ev.rx id bytes len =>
      net_rx { s with mem := Function.update s.mem id bytes,
                      delivered := s.delivered ++ [id] } id bytes len
    | Ev.bind port => sys_bind s port
    | Ev.recv port => (sys_recv_full (fun _ => true) s port 0 0 0 0).1

/-- Run a trace of events from the initial kernel state. -/
def runTrace (evs : List Ev) : NetState := evs.foldl netStep initNet

/-- The buffer ids of the inbound frames of a trace. -/
def rxIds : List Ev → List Nat
  | [] => []
  | Ev.rx id _ _ :: t => id :: rxIds t
  | Ev.bind _ :: t => rxIds t
  | Ev.recv _ :: t => rxIds t

/-- The number of un-consumed queue entries holding buffer `id`,
summed over all delivery queues. -/
def queuedCount (s : NetState) (id : Nat) : Nat :=
  (s.rings.map (fun r => (contents r).countP (fun p => p.buf == id))).sum

/-- `net_rx`'s dispatch condition for the IP path. -/
def takesIpPath (bytes : List Nat) (len : Nat) : Prop :=
  ¬ (ETH_SIZE + ARP_SIZE ≤ len ∧ ntohs2 bytes 12 = ETHTYPE_ARP) ∧
    (ETH_SIZE + IP_SIZE ≤ len ∧ ntohs2 bytes 12 = ETHTYPE_IP)

/-- The side condition under which the exactly-one-free discipline
holds (see C1): no IP-path frame is addressed to UDP port 0.  Port 0
marks an unused slot, so such a frame is queued into an unclaimed
slot, which a later `bind` resets, orphaning the buffer. -/
def GoodEv : Ev → Prop
  | Ev.rx _ bytes len => takesIpPath bytes len → ipRxLookupDport bytes ≠ 0
  | Ev.bind _ => True
  | Ev.recv _ => True

/-- The C1 buffer-accounting invariant: every queue is within
capacity with cursors bounded by the number of delivered frames;
unclaimed slots (`dport == 0`) hold no entries; delivered buffer ids
are distinct; every delivered buffer is accounted for exactly once
(freed once and not queued, or still queued once and not freed); and
no other id has been freed or queued. -/
def NetInv (s : NetState) : Prop :=
  (∀ r ∈ s.rings, r.read ≤ r.write ∧ r.write - r.read ≤ 16 ∧
    r.write ≤ s.delivered.length) ∧
  (∀ r ∈ s.rings, r.dport = 0 → r.read = r.write) ∧
  s.delivered.Nodup ∧
  (∀ id ∈ s.delivered, s.freed.count id + queuedCount s id = 1) ∧
  (∀ id, id ∉ s.delivered → s.freed.count id = 0 ∧ queuedCount s id = 0)

/-- Iterated `arp_rx` over a sequence of inbound ARP frames, each a
(buffer id, bytes) pair. -/
def arpRxAll (s : NetState) (frames : List (Nat × List Nat)) : NetState :=
  frames.foldl (fun st f => arp_rx st f.1 f.2) s

/-- A concrete inbound UDP frame for the `sys_recv` witnesses:
Ethernet/IP/UDP headers (IHL 5, source 10.0.2.2, source port 1234,
UDP length 13) followed by the 5-byte payload `hello`. -/
def wFrame : List Nat :=
  [0, 0, 0, 0, 0, 0, 0, 0, 0, 0, 0, 0, 0x08, 0x00] ++
    [0x45, 0, 0, 33, 0, 0, 0, 0, 100, 17, 0, 0, 10, 0, 2, 2, 10, 0, 2, 15] ++
    [0x04, 0xD2, 0x23, 0x28, 0, 13, 0, 0] ++
    [104, 101, 108, 108, 111]

/-- A slot bound to port 9000 holding one queued packet (buffer id 1,
source port 1234, length 47). -/
def wRing : BindRing Packet :=
  BindRing.mk (Function.update (fun _ => Packet.mk 0 0 0) 0 (Packet.mk 1 1234 47)) 0 1 0 9000

/-- A kernel state with the single bound slot `wRing` and `wFrame`
DMA'd into buffer 1. -/
def wState : NetState :=
  NetState.mk [wRing] false [] [] [1] (fun _ => wFrame) false

/-- A minimal inbound frame taking the IP path with UDP destination
port 0 (Ethernet type 0x0800, then 24 zero bytes covering the IP
header and the UDP ports). -/
def cFrame : List Nat :=
  [0, 0, 0, 0, 0, 0, 0, 0, 0, 0, 0, 0, 0x08, 0x00] ++ List.replicate 24 0

theorem wsum_le (bytes : List Nat) (h : ∀ b ∈ bytes, b < 256) :
    wsum bytes ≤ 65535 * bytes.length := by
  induction bytes using wsum.induct with
  | case1 a b t ih =>
    have ha : a < 256 := h a (by simp)
    have hb : b < 256 := h b (by simp)
    have ht := ih (fun x hx => h x (by simp [hx]))
    simp only [wsum, List.length_cons]
    omega
  | case2 b =>
    have hb : b < 256 := h b (by simp)
    simp only [wsum, List.length_cons, List.length_nil]
    omega
  | case3 => simp [wsum]

theorem cksumWords_eq_wsum (bytes : List Nat) (acc : Nat)
    (h : acc + wsum bytes < 2 ^ 32) :
    cksumWords bytes acc = acc + wsum bytes := by
  induction bytes using wsum.induct generalizing acc with
  | case1 a b t ih =>
    simp only [cksumWords, wsum] at *
    rw [Nat.mod_eq_of_lt (by omega), ih]
    · omega
    · omega
  | case2 b =>
    simp only [cksumWords, wsum] at *
    rw [Nat.mod_eq_of_lt (by omega)]
  | case3 => simp [cksumWords, wsum]

theorem wsum_append_even (xs ys : List Nat) (h : xs.length % 2 = 0) :
    wsum (xs ++ ys) = wsum xs + wsum ys := by
  induction xs using wsum.induct with
  | case1 a b t ih =>
    simp only [List.length_cons] at h
    simp only [List.cons_append, wsum]
    rw [List.append_eq, ih (by omega)]
    omega
  | case2 b => simp at h
  | case3 => simp [wsum]

theorem cksumFold_core (f1 : Nat) (h : f1 ≤ 131070) :
    (f1 + f1 / 65536) % 65536 % 65535 = f1 % 65535 ∧
      ((f1 + f1 / 65536) % 65536 = 0 → f1 = 0) := by
  rcases Nat.lt_or_ge f1 65536 with hc | hc
  · have h0 : f1 / 65536 = 0 := by omega
    rw [h0]
    omega
  · have h1 : f1 / 65536 = 1 := by omega
    rw [h1]
    omega

/-- The two carry folds bring a bounded sum below `2 ^ 16` while
preserving its residue modulo `65535`; the folded value vanishes only on
the zero sum. -/
theorem cksumFold_spec (s : Nat) (hs : s < 2 ^ 26) :
    cksumFold s % 65536 % 65535 = s % 65535 ∧
      (cksumFold s % 65536 = 0 → s = 0) := by
  have h26 : (2 : Nat) ^ 26 = 67108864 := by norm_num
  have hq : s / 65536 < 1024 := by omega
  have hf1 : s % 65536 + s / 65536 ≤ 131070 := by omega
  have hlt : s % 65536 + s / 65536 + (s % 65536 + s / 65536) / 65536 < 2 ^ 32 := by
    have h32 : (2 : Nat) ^ 32 = 4294967296 := by norm_num
    omega
  have hcf : cksumFold s = (s % 65536 + s / 65536) + (s % 65536 + s / 65536) / 65536 := by
    unfold cksumFold
    exact Nat.mod_eq_of_lt hlt
  have hcore := cksumFold_core (s % 65536 + s / 65536) hf1
  have hmod : (s % 65536 + s / 65536) % 65535 = s % 65535 := by omega
  rw [hcf]
  constructor
  · rw [hcore.1, hmod]
  · intro h0
    have := hcore.2 h0
    omega

theorem mem_header_bytes_lt {pre post : List Nat} {x y : Nat}
    (hb1 : ∀ b ∈ pre, b < 256) (hb2 : ∀ b ∈ post, b < 256)
    (hx : x < 256) (hy : y < 256) :
    ∀ b ∈ pre ++ x :: y :: post, b < 256 := by
  intro b hb
  rcases List.mem_append.mp hb with h | h
  · exact hb1 b h
  · rcases List.mem_cons.mp h with h | h
    · omega
    · rcases List.mem_cons.mp h with h | h
      · omega
      · exact hb2 b h

theorem wsum_header (pre post : List Nat) (x y : Nat)
    (hpre : pre.length = 10) (hx : x < 256) (hy : y < 256) :
    wsum (pre ++ x :: y :: post) = wsum pre + (x + 256 * y) + wsum post := by
  rw [wsum_append_even pre (x :: y :: post) (by omega)]
  simp only [wsum]
  omega

theorem cksumWords_header (pre post : List Nat) (x y : Nat)
    (hpre : pre.length = 10) (hlen : post.length ≤ 48)
    (hb1 : ∀ b ∈ pre, b < 256) (hb2 : ∀ b ∈ post, b < 256)
    (hx : x < 256) (hy : y < 256) :
    cksumWords (pre ++ x :: y :: post) 0 = wsum pre + (x + 256 * y) + wsum post := by
  have hball := mem_header_bytes_lt hb1 hb2 hx hy
  have hle := wsum_le (pre ++ x :: y :: post) hball
  have hlen2 : (pre ++ x :: y :: post).length = post.length + 12 := by
    simp [hpre]
    omega
  rw [cksumWords_eq_wsum _ 0 (by norm_num; omega), Nat.zero_add,
    wsum_header pre post x y hpre hx hy]

/-- C4: for every byte sequence forming an IP header (checksum field at
bytes 10-11, initially zero), writing the value computed by `in_cksum`
into the checksum field and re-running the one's-complement 16-bit-word
sum over the whole header, carries folded back, yields exactly `0xFFFF`.
The checksum value is stored little-endian (`c % 256` then `c / 256`),
which is how the returned `unsigned short` lands in the header in
memory. -/
theorem C4_checksum_roundtrip (pre post : List Nat)
    (hpre : pre.length = 10) (hlen : post.length ≤ 48)
    (hb1 : ∀ b ∈ pre, b < 256) (hb2 : ∀ b ∈ post, b < 256) :
    cksumFolded (pre ++ (in_cksum (pre ++ 0 :: 0 :: post) % 256) ::
      (in_cksum (pre ++ 0 :: 0 :: post) / 256) :: post) = 65535 := by
  have hw0 : cksumWords (pre ++ 0 :: 0 :: post) 0 = wsum pre + wsum post := by
    have := cksumWords_header pre post 0 0 hpre hlen hb1 hb2 (by omega) (by omega)
    omega
  have hs_le : wsum pre + wsum post ≤ 3932100 := by
    have h1 := wsum_le pre hb1
    have h2 := wsum_le post hb2
    have : pre.length = 10 := hpre
    nlinarith
  have hs26 : wsum pre + wsum post < 2 ^ 26 := by norm_num; omega
  have hspec := cksumFold_spec (wsum pre + wsum post) hs26
  have hv_lt : cksumFolded (pre ++ 0 :: 0 :: post) < 65536 := by
    unfold cksumFolded
    omega
  have hc_def : in_cksum (pre ++ 0 :: 0 :: post) =
      65535 - cksumFolded (pre ++ 0 :: 0 :: post) := rfl
  have hc_le : in_cksum (pre ++ 0 :: 0 :: post) ≤ 65535 := by omega
  have hw1 : cksumWords (pre ++ (in_cksum (pre ++ 0 :: 0 :: post) % 256) ::
      (in_cksum (pre ++ 0 :: 0 :: post) / 256) :: post) 0 =
      wsum pre + in_cksum (pre ++ 0 :: 0 :: post) + wsum post := by
    rw [cksumWords_header pre post _ _ hpre hlen hb1 hb2 (by omega) (by omega)]
    have := Nat.mod_add_div (in_cksum (pre ++ 0 :: 0 :: post)) 256
    omega
  have hv_mod : cksumFolded (pre ++ 0 :: 0 :: post) % 65535 =
      (wsum pre + wsum post) % 65535 := by
    unfold cksumFolded
    rw [hw0]
    exact hspec.1
  have hv_zero : cksumFolded (pre ++ 0 :: 0 :: post) = 0 →
      wsum pre + wsum post = 0 := by
    unfold cksumFolded
    rw [hw0]
    exact hspec.2
  -- the verification sum is the production sum plus the stored checksum
  have hs'26 : wsum pre + in_cksum (pre ++ 0 :: 0 :: post) + wsum post < 2 ^ 26 := by
    norm_num
    omega
  have hspec' := cksumFold_spec _ hs'26
  unfold cksumFolded
  rw [hw1]
  -- the verification sum is divisible by 65535 and nonzero
  have hdvd : (wsum pre + in_cksum (pre ++ 0 :: 0 :: post) + wsum post) % 65535 = 0 := by
    rcases Nat.eq_zero_or_pos (wsum pre + wsum post) with hz | hpos
    · have hv0 : cksumFolded (pre ++ 0 :: 0 :: post) = 0 := by
        unfold cksumFolded
        rw [hw0, hz]
        decide
      rw [hc_def, hv0]
      omega
    · omega
  have hnz : wsum pre + in_cksum (pre ++ 0 :: 0 :: post) + wsum post ≠ 0 := by
    intro h0
    have hc0 : in_cksum (pre ++ 0 :: 0 :: post) = 0 := by omega
    have hz : wsum pre + wsum post = 0 := by omega
    have hv0 : cksumFolded (pre ++ 0 :: 0 :: post) = 0 := by
      unfold cksumFolded
      rw [hw0, hz]
      decide
    rw [hc_def, hv0] at hc0
    omega
  have h1 := hspec'.1
  have h2 := hspec'.2
  omega

/-- Witness for C4 at a concrete 20-byte IP header (the header
`sys_send` builds for a 0-byte payload, before the checksum is
installed). -/
theorem C4_checksum_roundtrip_witness :
    [(0x45 : Nat), 0, 0, 28, 0, 0, 0, 0, 100, 17].length = 10 ∧
      ([(10 : Nat), 0, 2, 15, 10, 0, 2, 2] : List Nat).length ≤ 48 ∧
      cksumFolded ([(0x45 : Nat), 0, 0, 28, 0, 0, 0, 0, 100, 17] ++
        (in_cksum ([(0x45 : Nat), 0, 0, 28, 0, 0, 0, 0, 100, 17] ++
          0 :: 0 :: [(10 : Nat), 0, 2, 15, 10, 0, 2, 2]) % 256) ::
        (in_cksum ([(0x45 : Nat), 0, 0, 28, 0, 0, 0, 0, 100, 17] ++
          0 :: 0 :: [(10 : Nat), 0, 2, 15, 10, 0, 2, 2]) / 256) ::
        [(10 : Nat), 0, 2, 15, 10, 0, 2, 2]) = 65535 :=
  ⟨by decide, by decide,
    C4_checksum_roundtrip [0x45, 0, 0, 28, 0, 0, 0, 0, 100, 17]
      [10, 0, 2, 15, 10, 0, 2, 2] (by decide) (by decide) (by decide) (by decide)⟩

/-! ## BindRing buffer lemmas (the sane cursor regime) -/

theorem length_memSub (bytes : List Nat) (i n : Nat) :
    (memSub bytes i n).length = n := by
  simp [memSub]

theorem ringIdx_small (n : Nat) (h : n < 2 ^ 31) :
    ringIdx n = ((n % 16 : Nat) : Int) := by
  have h32 : n % 2 ^ 32 = n := Nat.mod_eq_of_lt (by omega)
  unfold ringIdx toInt32 ring_mod
  rw [h32, if_pos h, show ((16 : Int)) = ((16 : Nat) : Int) from rfl, ← Int.ofNat_tmod]

theorem ring_size_wf {α : Type} (r : BindRing α) (h : BindRingWf r) :
    ring_size r = ((r.write - r.read : Nat) : Int) := by
  obtain ⟨h1, h2, h3⟩ := h
  unfold ring_size usub32 toInt32
  have e1 : r.write % 2 ^ 32 = r.write := Nat.mod_eq_of_lt (by omega)
  have e2 : r.read % 2 ^ 32 = r.read := Nat.mod_eq_of_lt (by omega)
  rw [e1, e2]
  have e3 : (r.write + 2 ^ 32 - r.read) % 2 ^ 32 = r.write - r.read := by omega
  rw [e3, if_pos (by omega), Nat.mod_eq_of_lt (by omega)]

theorem ring_full_wf {α : Type} (r : BindRing α) (h : BindRingWf r) :
    (ring_full r = true) ↔ r.write - r.read = 16 := by
  unfold ring_full
  rw [ring_size_wf r h, beq_iff_eq]
  omega

theorem ring_empty_iff {α : Type} (r : BindRing α) :
    (ring_empty r = true) ↔ r.write = r.read := by
  unfold ring_empty
  exact beq_iff_eq

theorem contents_length {α : Type} (r : BindRing α) :
    (contents r).length = r.write - r.read := by
  simp [contents]

theorem ring_enqueue_full {α : Type} (r : BindRing α) (p : α)
    (h : ring_full r = true) :
    ring_enqueue r p = ({ r with dropped := r.dropped + 1 }, 1) := by
  unfold ring_enqueue
  rw [if_pos h]

theorem ring_enqueue_ok {α : Type} (r : BindRing α) (p : α) (hwf : BindRingWf r)
    (hlt : r.write - r.read < 16) :
    ring_enqueue r p =
      ({ r with queue := Function.update r.queue ((r.write % 16 : Nat) : Int) p,
                write := r.write + 1 }, 0) := by
  have hnf : ¬ ring_full r = true := by
    rw [ring_full_wf r hwf]
    omega
  obtain ⟨h1, h2, h3⟩ := hwf
  unfold ring_enqueue
  rw [if_neg hnf, ringIdx_small r.write h3,
    Nat.mod_eq_of_lt (show r.write + 1 < 2 ^ 32 by omega)]

theorem contents_enqueue {α : Type} (r : BindRing α) (p : α) (hwf : BindRingWf r)
    (hlt : r.write - r.read < 16) :
    contents { r with queue := Function.update r.queue ((r.write % 16 : Nat) : Int) p,
                      write := r.write + 1 } = contents r ++ [p] := by
  obtain ⟨h1, h2, h3⟩ := hwf
  unfold contents
  dsimp only
  have hn : r.write + 1 - r.read = (r.write - r.read) + 1 := by omega
  rw [hn, List.range_succ, List.map_append]
  congr 1
  · apply List.map_congr_left
    intro k hk
    have hk' : k < r.write - r.read := List.mem_range.mp hk
    rw [Function.update_apply, if_neg]
    intro hc
    have hc' : (r.read + k) % 16 = r.write % 16 := by exact_mod_cast hc
    omega
  · simp only [List.map_cons, List.map_nil, Function.update_apply]
    rw [if_pos]
    have : (r.read + (r.write - r.read)) % 16 = r.write % 16 := by omega
    exact_mod_cast this

theorem ring_dequeue_nonempty {α : Type} (r : BindRing α) (hwf : BindRingWf r)
    (hne : r.read < r.write) :
    ring_dequeue r = ({ r with read := r.read + 1 },
      some (r.queue ((r.read % 16 : Nat) : Int))) := by
  have hni : ¬ ring_empty r = true := by
    rw [ring_empty_iff]
    omega
  obtain ⟨h1, h2, h3⟩ := hwf
  unfold ring_dequeue
  rw [if_neg hni, ringIdx_small r.read (by omega),
    Nat.mod_eq_of_lt (show r.read + 1 < 2 ^ 32 by omega)]

theorem contents_dequeue {α : Type} (r : BindRing α) (hwf : BindRingWf r)
    (hne : r.read < r.write) :
    contents r = r.queue ((r.read % 16 : Nat) : Int) ::
      contents { r with read := r.read + 1 } := by
  obtain ⟨h1, h2, h3⟩ := hwf
  unfold contents
  dsimp only
  have hn : r.write - r.read = (r.write - (r.read + 1)) + 1 := by omega
  rw [hn, List.range_succ_eq_map, List.map_cons, List.map_map]
  congr 1
  apply List.map_congr_left
  intro k hk
  simp only [Function.comp_apply]
  congr 1
  omega

theorem contents_mkRing {α : Type} (dflt : α) (d : Int) :
    contents (mkRing dflt d) = [] := rfl

theorem contents_dropped {α : Type} (r : BindRing α) (x : Int) :
    contents { r with dropped := x } = contents r := rfl

theorem ring_enqueue_ok_wf {α : Type} (r : BindRing α) (p : α) (hwf : BindRingWf r)
    (hlt : r.write - r.read < 16) (hcap : r.write + 1 < 2 ^ 31) :
    BindRingWf (ring_enqueue r p).1 := by
  rw [ring_enqueue_ok r p hwf hlt]
  obtain ⟨h1, h2, h3⟩ := hwf
  refine ⟨?_, ?_, ?_⟩ <;> dsimp <;> omega

theorem ring_enqueue_ok_parts {α : Type} (r : BindRing α) (p : α) (hwf : BindRingWf r)
    (hlt : r.write - r.read < 16) :
    (ring_enqueue r p).2 = 0 ∧
      contents (ring_enqueue r p).1 = contents r ++ [p] ∧
      (ring_enqueue r p).1.read = r.read ∧
      (ring_enqueue r p).1.write = r.write + 1 ∧
      (ring_enqueue r p).1.dropped = r.dropped ∧
      (ring_enqueue r p).1.dport = r.dport := by
  rw [ring_enqueue_ok r p hwf hlt]
  exact ⟨rfl, contents_enqueue r p hwf hlt, rfl, rfl, rfl, rfl⟩

theorem enqueueAll_ok {α : Type} (ps : List α) (r : BindRing α) (hwf : BindRingWf r)
    (hfit : (r.write - r.read) + ps.length ≤ 16)
    (hcap : r.write + ps.length < 2 ^ 31) :
    (enqueueAll r ps).2 = List.replicate ps.length 0 ∧
      BindRingWf (enqueueAll r ps).1 ∧
      contents (enqueueAll r ps).1 = contents r ++ ps ∧
      (enqueueAll r ps).1.read = r.read ∧
      (enqueueAll r ps).1.write = r.write + ps.length ∧
      (enqueueAll r ps).1.dropped = r.dropped ∧
      (enqueueAll r ps).1.dport = r.dport := by
  induction ps generalizing r with
  | nil => simp [enqueueAll, hwf]
  | cons p ps ih =>
    obtain ⟨h1, h2, h3⟩ := hwf
    simp only [List.length_cons] at hfit hcap
    have hlt : r.write - r.read < 16 := by omega
    obtain ⟨hc0, hcont, hrd, hwr, hdp, hpt⟩ :=
      ring_enqueue_ok_parts r p ⟨h1, h2, h3⟩ hlt
    have hwf1 : BindRingWf (ring_enqueue r p).1 :=
      ring_enqueue_ok_wf r p ⟨h1, h2, h3⟩ hlt (by omega)
    obtain ⟨e1, e2, e3, e4, e5, e6, e7⟩ :=
      ih (ring_enqueue r p).1 hwf1 (by rw [hrd, hwr]; omega) (by rw [hwr]; omega)
    simp only [enqueueAll, List.length_cons]
    refine ⟨?_, e2, ?_, ?_, ?_, ?_, ?_⟩
    · rw [hc0, e1, List.replicate_succ]
    · rw [e3, hcont]
      simp
    · rw [e4, hrd]
    · rw [e5, hwr]
      omega
    · rw [e6, hdp]
    · rw [e7, hpt]

theorem dequeueN_contents {α : Type} (n : Nat) (r : BindRing α) (hwf : BindRingWf r)
    (hn : r.write - r.read = n) :
    (dequeueN r n).2 = contents r ∧
      (dequeueN r n).1.read = r.write ∧
      (dequeueN r n).1.write = r.write ∧
      (dequeueN r n).1.dropped = r.dropped ∧
      (dequeueN r n).1.dport = r.dport := by
  induction n generalizing r with
  | zero =>
    obtain ⟨h1, h2, h3⟩ := hwf
    simp [dequeueN, contents, hn]
    omega
  | succ n ih =>
    obtain ⟨h1, h2, h3⟩ := hwf
    have hne : r.read < r.write := by omega
    have hdq := ring_dequeue_nonempty r ⟨h1, h2, h3⟩ hne
    have hwf' : BindRingWf { r with read := r.read + 1 } := by
      refine ⟨?_, ?_, ?_⟩ <;> dsimp <;> omega
    have hcont := contents_dequeue r ⟨h1, h2, h3⟩ hne
    have ih' := ih _ hwf' (by dsimp; omega)
    simp only [dequeueN, hdq]
    exact ⟨by rw [hcont, ih'.1], ih'.2.1, ih'.2.2.1, ih'.2.2.2.1, ih'.2.2.2.2⟩

theorem enqueueAll_append {α : Type} (xs ys : List α) (r : BindRing α) :
    enqueueAll r (xs ++ ys) =
      ((enqueueAll (enqueueAll r xs).1 ys).1,
        (enqueueAll r xs).2 ++ (enqueueAll (enqueueAll r xs).1 ys).2) := by
  induction xs generalizing r with
  | nil => simp [enqueueAll]
  | cons x xs ih =>
    simp only [List.cons_append, enqueueAll, List.append_eq]
    rw [ih]

/-- C2: evidence that the ring-cursor arithmetic does not stay correct
across unboundedly many operations.  At the reachable cursor value
`2 ^ 31 + 3` (after `2 ^ 31 + 3` enqueues, e.g. balanced with
dequeues), the `uint32` cursor passed to `ring_mod`'s `int` parameter
wraps negative and C truncated `%` yields `-13`, so `ring_enqueue`
writes `queue[-13]` — outside the 16-slot array — instead of the
mathematically correct slot `3`; the correct slot keeps its old
value. -/
theorem C2_ring_mod_out_of_bounds :
    ringIdx 2147483651 = -13 ∧
      (2147483651 : Nat) % 16 = 3 ∧
      (ring_enqueue (BindRing.mk (fun _ => (0 : Nat)) 2147483651 2147483651 0 9000) 7).1.queue
          (-13) = 7 ∧
      (ring_enqueue (BindRing.mk (fun _ => (0 : Nat)) 2147483651 2147483651 0 9000) 7).1.queue
          3 = 0 := by
  refine ⟨by decide, by decide, ?_, ?_⟩ <;>
    simp [ring_enqueue, ring_full, ring_size, usub32, toInt32, ringIdx, ring_mod,
      Function.update] <;> decide

theorem enqueueAll_singleton {α : Type} (r : BindRing α) (p : α) :
    enqueueAll r [p] = ((ring_enqueue r p).1, [(ring_enqueue r p).2]) := rfl

/-- C5: `ring_enqueue` on a queue holding 16 un-dequeued entries only
increments the drop counter and reports failure (result code 1),
leaving the queue array and both cursors untouched; and in the
scenario-4 run — 17 packets `g 0 .. g 16` delivered to a freshly bound
ring — the 17th is dropped (codes `0 × 16` then `1`), the drop counter
ends at exactly 1, and 16 dequeues return `g 0 .. g 15` in FIFO
order. -/
theorem C5_full_enqueue_drops {α : Type} (r : BindRing α) (p dflt : α) (d : Int)
    (g : Nat → α) (hwf : BindRingWf r) (hfull : r.write - r.read = 16) :
    ring_enqueue r p = ({ r with dropped := r.dropped + 1 }, 1) ∧
      (enqueueAll (mkRing dflt d) ((List.range 17).map g)).2 =
        List.replicate 16 0 ++ [1] ∧
      (enqueueAll (mkRing dflt d) ((List.range 17).map g)).1.dropped = 1 ∧
      (dequeueN (enqueueAll (mkRing dflt d) ((List.range 17).map g)).1 16).2 =
        (List.range 16).map g := by
  refine ⟨ring_enqueue_full r p ((ring_full_wf r hwf).mpr hfull), ?_⟩
  have hwf0 : BindRingWf (mkRing dflt d) := by
    refine ⟨?_, ?_, ?_⟩ <;> norm_num [mkRing]
  have hsplit : (List.range 17).map g = (List.range 16).map g ++ [g 16] := by
    rw [show (17 : Nat) = 16 + 1 from rfl, List.range_succ, List.map_append]
    rfl
  obtain ⟨e1, e2wf, e3, e4, e5, e6, e7⟩ :=
    enqueueAll_ok ((List.range 16).map g) (mkRing dflt d) hwf0
      (by simp [mkRing]) (by norm_num [mkRing])
  obtain ⟨R16, hR16⟩ : ∃ x, (enqueueAll (mkRing dflt d) ((List.range 16).map g)).1 = x :=
    ⟨_, rfl⟩
  rw [hR16] at e2wf e3 e4 e5 e6 e7
  have hc16 : contents R16 = (List.range 16).map g := by
    rw [e3, contents_mkRing, List.nil_append]
  have hfull16 : ring_full R16 = true := by
    refine (ring_full_wf _ e2wf).mpr ?_
    rw [e4, e5]
    simp [mkRing]
  have h17 := ring_enqueue_full R16 (g 16) hfull16
  rw [hsplit, enqueueAll_append, hR16, enqueueAll_singleton, h17]
  have e2wf' : BindRingWf { R16 with dropped := R16.dropped + 1 } :=
    ⟨e2wf.1, e2wf.2.1, e2wf.2.2⟩
  have hsz : ({ R16 with dropped := R16.dropped + 1 } : BindRing α).write -
      ({ R16 with dropped := R16.dropped + 1 } : BindRing α).read = 16 := by
    dsimp
    rw [e4, e5]
    simp [mkRing]
  obtain ⟨q1, _, _, _, _⟩ := dequeueN_contents 16 _ e2wf' hsz
  refine ⟨?_, ?_, ?_⟩
  · rw [e1]
    rfl
  · dsimp
    rw [e6]
    rfl
  · rw [q1, contents_dropped, hc16]

/-- Witness for C5: a concretely full ring (cursors 0 and 16), packet
value 5, scenario run with `g = id` on a ring bound to port 7. -/
theorem C5_full_enqueue_drops_witness :
    BindRingWf (BindRing.mk (fun _ => (0 : Nat)) 0 16 0 9000) ∧
      (BindRing.mk (fun _ => (0 : Nat)) 0 16 0 9000).write -
        (BindRing.mk (fun _ => (0 : Nat)) 0 16 0 9000).read = 16 ∧
      (ring_enqueue (BindRing.mk (fun _ => (0 : Nat)) 0 16 0 9000) 5 =
        ({ BindRing.mk (fun _ => (0 : Nat)) 0 16 0 9000 with dropped := 0 + 1 }, 1) ∧
      (enqueueAll (mkRing (0 : Nat) 7) ((List.range 17).map (fun k => k))).2 =
        List.replicate 16 0 ++ [1] ∧
      (enqueueAll (mkRing (0 : Nat) 7) ((List.range 17).map (fun k => k))).1.dropped = 1 ∧
      (dequeueN (enqueueAll (mkRing (0 : Nat) 7) ((List.range 17).map (fun k => k))).1 16).2 =
        (List.range 16).map (fun k => k)) :=
  ⟨⟨by norm_num, by norm_num, by norm_num⟩, rfl,
    C5_full_enqueue_drops (BindRing.mk (fun _ => (0 : Nat)) 0 16 0 9000) 5 0 7
      (fun k => k) ⟨by norm_num, by norm_num, by norm_num⟩ rfl⟩

/-! ## e1000 receive-reclaim lemmas -/

theorem descAfterTail_zero (s : RxState) :
    descAfterTail s 0 = s.descs ⟨(s.rdt + 1) % 16, Nat.mod_lt _ (by norm_num)⟩ := rfl

theorem e1000_recv_step_stop (alloc : Nat → Nat) (s s' : RxState)
    (h : e1000_recv_step alloc s = (s', RxStep.stop)) :
    s' = s ∧ ¬ (descAfterTail s 0).status &&& 1 = 1 := by
  simp only [e1000_recv_step] at h
  rw [descAfterTail_zero]
  split at h
  · rename_i hcond
    injection h with h1 h2
    exact ⟨h1.symm, by simpa [E1000_RXD_STAT_DD] using hcond⟩
  · split at h
    · injection h with h1 h2
      exact absurd h2 (by simp)
    · injection h with h1 h2
      exact absurd h2 (by simp)

theorem e1000_recv_step_fatal (alloc : Nat → Nat) (s s' : RxState)
    (h : e1000_recv_step alloc s = (s', RxStep.fatal)) :
    s' = s ∧ (descAfterTail s 0).status &&& 1 = 1 ∧
      (descAfterTail s 0).status &&& 2 = 0 := by
  simp only [e1000_recv_step] at h
  rw [descAfterTail_zero]
  split at h
  · injection h with h1 h2
    exact absurd h2 (by simp)
  · rename_i hdd
    split at h
    · rename_i heop
      injection h with h1 h2
      refine ⟨h1.symm, ?_, by simpa [E1000_RXD_STAT_EOP] using heop⟩
      simp only [E1000_RXD_STAT_DD, ne_eq, not_not] at hdd
      exact hdd
    · injection h with h1 h2
      exact absurd h2 (by simp)

theorem e1000_recv_step_processed (alloc : Nat → Nat) (s s' : RxState)
    (h : e1000_recv_step alloc s = (s', RxStep.processed)) :
    (descAfterTail s 0).status &&& 1 = 1 ∧
      (descAfterTail s 0).status &&& 2 ≠ 0 ∧
      s'.rdt = (s.rdt + 1) % 16 ∧
      s'.allocd = s.allocd + 1 ∧
      s'.descs = Function.update s.descs ⟨(s.rdt + 1) % 16, Nat.mod_lt _ (by norm_num)⟩
        { descAfterTail s 0 with addr := alloc s.allocd, status := 0 } ∧
      s'.received = s.received ++ [((descAfterTail s 0).addr, (descAfterTail s 0).length)] := by
  simp only [e1000_recv_step] at h
  rw [descAfterTail_zero]
  split at h
  · injection h with h1 h2
    exact absurd h2 (by simp)
  · rename_i hdd
    split at h
    · injection h with h1 h2
      exact absurd h2 (by simp)
    · rename_i heop
      injection h with h1 h2
      subst h1
      simp only [E1000_RXD_STAT_DD, ne_eq, not_not] at hdd
      exact ⟨hdd, by simpa [E1000_RXD_STAT_EOP] using heop, rfl, rfl, rfl, rfl⟩

theorem descAfterTail_processed (alloc : Nat → Nat) (s s' : RxState)
    (h : e1000_recv_step alloc s = (s', RxStep.processed)) (k : Nat) (hk : k < 15) :
    descAfterTail s' k = descAfterTail s (k + 1) := by
  obtain ⟨-, -, hrdt, -, hdescs, -⟩ := e1000_recv_step_processed alloc s s' h
  unfold descAfterTail
  simp only [hrdt, hdescs, Function.update_apply]
  rw [if_neg]
  · exact congrArg s.descs (Fin.ext (by simp only []; omega))
  · intro hc
    have hv := congrArg Fin.val hc
    simp only [] at hv
    omega

theorem e1000_recv_go_spec (alloc : Nat → Nat) :
    ∀ fuel : Nat, fuel ≤ 16 → ∀ s : RxState,
      (e1000_recv_go alloc fuel s).2.1 ≤ fuel ∧
      (∀ j < (e1000_recv_go alloc fuel s).2.1,
        (descAfterTail s j).status &&& 1 = 1 ∧ (descAfterTail s j).status &&& 2 ≠ 0) ∧
      ((e1000_recv_go alloc fuel s).2.2 = false →
        (e1000_recv_go alloc fuel s).2.1 < fuel →
        ¬ (descAfterTail s (e1000_recv_go alloc fuel s).2.1).status &&& 1 = 1) ∧
      ((e1000_recv_go alloc fuel s).2.2 = true →
        (e1000_recv_go alloc fuel s).2.1 < fuel ∧
        (descAfterTail s (e1000_recv_go alloc fuel s).2.1).status &&& 1 = 1 ∧
        (descAfterTail s (e1000_recv_go alloc fuel s).2.1).status &&& 2 = 0) := by
  intro fuel
  induction fuel with
  | zero =>
    intro _ s
    refine ⟨le_refl 0, ?_, ?_, ?_⟩
    · intro j hj
      exact absurd hj (Nat.not_lt_zero j)
    · intro _ hlt
      exact absurd hlt (by omega)
    · intro hcontra
      simp [e1000_recv_go] at hcontra
  | succ fuel ih =>
    intro hf s
    have hf' : fuel ≤ 16 := by omega
    rcases hstep : e1000_recv_step alloc s with ⟨s', st⟩
    cases st with
    | stop =>
      obtain ⟨-, hnd⟩ := e1000_recv_step_stop alloc s s' hstep
      simp only [e1000_recv_go, hstep]
      refine ⟨by omega, ?_, ?_, ?_⟩
      · intro j hj
        exact absurd hj (Nat.not_lt_zero j)
      · intro _ _
        exact hnd
      · intro hcontra
        simp at hcontra
    | fatal =>
      obtain ⟨-, hdd, heop⟩ := e1000_recv_step_fatal alloc s s' hstep
      simp only [e1000_recv_go, hstep]
      refine ⟨by omega, ?_, ?_, ?_⟩
      · intro j hj
        exact absurd hj (Nat.not_lt_zero j)
      · intro hcontra
        simp at hcontra
      · intro _
        exact ⟨by omega, hdd, heop⟩
    | processed =>
      obtain ⟨hdd0, heop0, -, -, -, -⟩ := e1000_recv_step_processed alloc s s' hstep
      obtain ⟨ih1, ih2, ih3, ih4⟩ := ih hf' s'
      have hshift : ∀ k < 15, descAfterTail s' k = descAfterTail s (k + 1) :=
        fun k hk => descAfterTail_processed alloc s s' hstep k hk
      simp only [e1000_recv_go, hstep]
      refine ⟨by omega, ?_, ?_, ?_⟩
      · intro j hj
        cases j with
        | zero => exact ⟨hdd0, heop0⟩
        | succ k =>
          have hk : k < (e1000_recv_go alloc fuel s').2.1 := by omega
          have hk15 : k < 15 := by omega
          rw [← hshift k hk15]
          exact ih2 k hk
      · intro hfalse hlt
        have hn : (e1000_recv_go alloc fuel s').2.1 < fuel := by omega
        have h15 : (e1000_recv_go alloc fuel s').2.1 < 15 := by omega
        rw [← hshift _ h15]
        exact ih3 hfalse hn
      · intro htrue
        obtain ⟨hn, hd, he⟩ := ih4 htrue
        have h15 : (e1000_recv_go alloc fuel s').2.1 < 15 := by omega
        rw [← hshift _ h15]
        exact ⟨by omega, hd, he⟩

/-- C6: each invocation of the receive-reclaim procedure processes at
most 16 (the ring length) descriptors; every descriptor it processed
had both the done and end-of-packet status bits set; on a normal exit
before the bound, the next descriptor after the processed run is
exactly the first one whose done bit is clear; and whenever the scan
reaches a descriptor with done set but end-of-packet clear, the
invocation ends in the fatal panic condition at exactly that
descriptor rather than processing or dropping it. -/
theorem C6_recv_reclaim_stops_and_panics (alloc : Nat → Nat) (s : RxState) :
    (e1000_recv alloc s).2.1 ≤ 16 ∧
      (∀ j < (e1000_recv alloc s).2.1,
        (descAfterTail s j).status &&& 1 = 1 ∧ (descAfterTail s j).status &&& 2 ≠ 0) ∧
      ((e1000_recv alloc s).2.2 = false → (e1000_recv alloc s).2.1 < 16 →
        ¬ (descAfterTail s (e1000_recv alloc s).2.1).status &&& 1 = 1) ∧
      ((e1000_recv alloc s).2.2 = true →
        (e1000_recv alloc s).2.1 < 16 ∧
        (descAfterTail s (e1000_recv alloc s).2.1).status &&& 1 = 1 ∧
        (descAfterTail s (e1000_recv alloc s).2.1).status &&& 2 = 0) :=
  e1000_recv_go_spec alloc 16 (le_refl 16) s

/-- Witness for C6 at a concrete state: tail at 15, descriptor 0 done
with EOP and descriptor 1 done without EOP — the run processes one
frame and then hits the fatal condition. -/
theorem C6_recv_reclaim_stops_and_panics_witness :
    (e1000_recv (fun _ => 55)
        (RxState.mk 15 (fun i => if i.val = 0 then RxDesc.mk 7 42 3 else
          if i.val = 1 then RxDesc.mk 8 42 1 else RxDesc.mk 9 42 0) 0 [])).2.1 ≤ 16 ∧
      (∀ j < (e1000_recv (fun _ => 55)
        (RxState.mk 15 (fun i => if i.val = 0 then RxDesc.mk 7 42 3 else
          if i.val = 1 then RxDesc.mk 8 42 1 else RxDesc.mk 9 42 0) 0 [])).2.1,
        (descAfterTail (RxState.mk 15 (fun i => if i.val = 0 then RxDesc.mk 7 42 3 else
          if i.val = 1 then RxDesc.mk 8 42 1 else RxDesc.mk 9 42 0) 0 []) j).status &&& 1 = 1 ∧
        (descAfterTail (RxState.mk 15 (fun i => if i.val = 0 then RxDesc.mk 7 42 3 else
          if i.val = 1 then RxDesc.mk 8 42 1 else RxDesc.mk 9 42 0) 0 []) j).status &&& 2 ≠ 0) ∧
      ((e1000_recv (fun _ => 55)
        (RxState.mk 15 (fun i => if i.val = 0 then RxDesc.mk 7 42 3 else
          if i.val = 1 then RxDesc.mk 8 42 1 else RxDesc.mk 9 42 0) 0 [])).2.2 = false →
        (e1000_recv (fun _ => 55)
        (RxState.mk 15 (fun i => if i.val = 0 then RxDesc.mk 7 42 3 else
          if i.val = 1 then RxDesc.mk 8 42 1 else RxDesc.mk 9 42 0) 0 [])).2.1 < 16 →
        ¬ (descAfterTail (RxState.mk 15 (fun i => if i.val = 0 then RxDesc.mk 7 42 3 else
          if i.val = 1 then RxDesc.mk 8 42 1 else RxDesc.mk 9 42 0) 0 [])
            (e1000_recv (fun _ => 55)
        (RxState.mk 15 (fun i => if i.val = 0 then RxDesc.mk 7 42 3 else
          if i.val = 1 then RxDesc.mk 8 42 1 else RxDesc.mk 9 42 0) 0 [])).2.1).status &&& 1 = 1) ∧
      ((e1000_recv (fun _ => 55)
        (RxState.mk 15 (fun i => if i.val = 0 then RxDesc.mk 7 42 3 else
          if i.val = 1 then RxDesc.mk 8 42 1 else RxDesc.mk 9 42 0) 0 [])).2.2 = true →
        (e1000_recv (fun _ => 55)
        (RxState.mk 15 (fun i => if i.val = 0 then RxDesc.mk 7 42 3 else
          if i.val = 1 then RxDesc.mk 8 42 1 else RxDesc.mk 9 42 0) 0 [])).2.1 < 16 ∧
        (descAfterTail (RxState.mk 15 (fun i => if i.val = 0 then RxDesc.mk 7 42 3 else
          if i.val = 1 then RxDesc.mk 8 42 1 else RxDesc.mk 9 42 0) 0 [])
            (e1000_recv (fun _ => 55)
        (RxState.mk 15 (fun i => if i.val = 0 then RxDesc.mk 7 42 3 else
          if i.val = 1 then RxDesc.mk 8 42 1 else RxDesc.mk 9 42 0) 0 [])).2.1).status &&& 1 = 1 ∧
        (descAfterTail (RxState.mk 15 (fun i => if i.val = 0 then RxDesc.mk 7 42 3 else
          if i.val = 1 then RxDesc.mk 8 42 1 else RxDesc.mk 9 42 0) 0 [])
            (e1000_recv (fun _ => 55)
        (RxState.mk 15 (fun i => if i.val = 0 then RxDesc.mk 7 42 3 else
          if i.val = 1 then RxDesc.mk 8 42 1 else RxDesc.mk 9 42 0) 0 [])).2.1).status &&& 2 = 0) :=
  C6_recv_reclaim_stops_and_panics (fun _ => 55)
    (RxState.mk 15 (fun i => if i.val = 0 then RxDesc.mk 7 42 3 else
      if i.val = 1 then RxDesc.mk 8 42 1 else RxDesc.mk 9 42 0) 0 [])

theorem e1000_init_rx_go_none (a : Nat → Nat) :
    ∀ (n i : Nat), (∃ j, j < n ∧ a (i + j) = 0) → e1000_init_rx_go a i n = none := by
  intro n
  induction n with
  | zero =>
    rintro i ⟨j, hj, -⟩
    exact absurd hj (Nat.not_lt_zero j)
  | succ n ih =>
    rintro i ⟨j, hj, hz⟩
    by_cases h0 : a i = 0
    · simp [e1000_init_rx_go, h0]
    · have hj0 : j ≠ 0 := by
        rintro rfl
        exact h0 (by simpa using hz)
      have hex : ∃ j', j' < n ∧ a (i + 1 + j') = 0 :=
        ⟨j - 1, by omega, by rw [show i + 1 + (j - 1) = i + j by omega]; exact hz⟩
      simp [e1000_init_rx_go, h0, ih (i + 1) hex]

/-- C9: the reclaim loop installs the allocator's result into the
descriptor and hands the descriptor back to the hardware without any
null check — when the allocator returns null (0) for a done,
end-of-packet descriptor, the iteration completes normally
(`processed`, no panic), publishes the descriptor's index to the tail
register, and leaves a descriptor with buffer address 0 owned by the
device; whereas the very same allocation failure during
`e1000_init`'s receive-ring setup is a fatal `panic` (`none`). -/
theorem C9_null_replacement_published (alloc : Nat → Nat) (s : RxState)
    (hdd : (descAfterTail s 0).status &&& 1 = 1)
    (heop : (descAfterTail s 0).status &&& 2 ≠ 0)
    (hnull : alloc s.allocd = 0) :
    (e1000_recv_step alloc s).2 = RxStep.processed ∧
      ((e1000_recv_step alloc s).1.descs
        ⟨(s.rdt + 1) % 16, Nat.mod_lt _ (by norm_num)⟩).addr = 0 ∧
      (e1000_recv_step alloc s).1.rdt = (s.rdt + 1) % 16 ∧
      (∀ a : Nat → Nat, (∃ j, j < 16 ∧ a j = 0) → e1000_init_rx a = none) := by
  have hstep : e1000_recv_step alloc s =
      ({ rdt := (s.rdt + 1) % 16,
         descs := Function.update s.descs ⟨(s.rdt + 1) % 16, Nat.mod_lt _ (by norm_num)⟩
           { descAfterTail s 0 with addr := alloc s.allocd, status := 0 },
         allocd := s.allocd + 1,
         received := s.received ++
           [((descAfterTail s 0).addr, (descAfterTail s 0).length)] }, RxStep.processed) := by
    rw [descAfterTail_zero] at hdd heop
    simp only [e1000_recv_step, E1000_RXD_STAT_DD, E1000_RXD_STAT_EOP]
    rw [if_neg (by simpa using hdd), if_neg heop]
    rfl
  refine ⟨by rw [hstep], ?_, by rw [hstep], ?_⟩
  · rw [hstep]
    simp [Function.update_apply, hnull]
  · intro a ha
    exact e1000_init_rx_go_none a 16 0 (by simpa using ha)

/-- Witness for C9: tail 15, descriptor 0 done+EOP, allocator always
null. -/
theorem C9_null_replacement_published_witness :
    (descAfterTail (RxState.mk 15 (fun _ => RxDesc.mk 7 42 3) 0 []) 0).status &&& 1 = 1 ∧
      (descAfterTail (RxState.mk 15 (fun _ => RxDesc.mk 7 42 3) 0 []) 0).status &&& 2 ≠ 0 ∧
      (fun _ => (0 : Nat)) (RxState.mk 15 (fun _ => RxDesc.mk 7 42 3) 0 []).allocd = 0 ∧
      ((e1000_recv_step (fun _ => 0) (RxState.mk 15 (fun _ => RxDesc.mk 7 42 3) 0 [])).2 =
          RxStep.processed ∧
        ((e1000_recv_step (fun _ => 0) (RxState.mk 15 (fun _ => RxDesc.mk 7 42 3) 0 [])).1.descs
          ⟨((RxState.mk 15 (fun _ => RxDesc.mk 7 42 3) 0 []).rdt + 1) % 16,
            Nat.mod_lt _ (by norm_num)⟩).addr = 0 ∧
        (e1000_recv_step (fun _ => 0) (RxState.mk 15 (fun _ => RxDesc.mk 7 42 3) 0 [])).1.rdt =
          ((RxState.mk 15 (fun _ => RxDesc.mk 7 42 3) 0 []).rdt + 1) % 16 ∧
        (∀ a : Nat → Nat, (∃ j, j < 16 ∧ a j = 0) → e1000_init_rx a = none)) :=
  ⟨by decide, by decide, rfl,
    C9_null_replacement_published (fun _ => 0) (RxState.mk 15 (fun _ => RxDesc.mk 7 42 3) 0 [])
      (by decide) (by decide) rfl⟩

/-! ## Dispatcher and `sys_recv` lemmas -/

theorem findRingIdx_none (l : List (BindRing Packet)) (p : Int)
    (h : ∀ r ∈ l, r.dport ≠ p) : findRingIdx l p = none := by
  induction l with
  | nil => rfl
  | cons r rs ih =>
    simp only [findRingIdx]
    rw [if_neg (h r (by simp)), ih (fun x hx => h x (by simp [hx]))]
    rfl

theorem findRingIdx_some (l : List (BindRing Packet)) (p : Int) :
    ∀ i, findRingIdx l p = some i →
      i < l.length ∧ (l.getD i (mkRing ⟨0, 0, 0⟩ 0)).dport = p := by
  induction l with
  | nil => intro i h; simp [findRingIdx] at h
  | cons r rs ih =>
    intro i h
    simp only [findRingIdx] at h
    split at h
    · rename_i hp
      obtain rfl : i = 0 := by injection h with h1; omega
      exact ⟨by simp, hp⟩
    · match hrec : findRingIdx rs p with
      | none => rw [hrec] at h; simp at h
      | some j =>
        rw [hrec] at h
        simp at h
        obtain rfl : i = j + 1 := by omega
        obtain ⟨hj1, hj2⟩ := ih j hrec
        exact ⟨by simp; omega, by simpa using hj2⟩

theorem nextFreeIdx_some (l : List (BindRing Packet)) :
    ∀ i, nextFreeIdx l = some i →
      i < l.length ∧ (l.getD i (mkRing ⟨0, 0, 0⟩ 0)).dport = 0 := by
  induction l with
  | nil => intro i h; simp [nextFreeIdx] at h
  | cons r rs ih =>
    intro i h
    simp only [nextFreeIdx] at h
    split at h
    · rename_i hp
      obtain rfl : i = 0 := by injection h with h1; omega
      exact ⟨by simp, hp⟩
    · match hrec : nextFreeIdx rs with
      | none => rw [hrec] at h; simp at h
      | some j =>
        rw [hrec] at h
        simp at h
        obtain rfl : i = j + 1 := by omega
        obtain ⟨hj1, hj2⟩ := ih j hrec
        exact ⟨by simp; omega, by simpa using hj2⟩

theorem trunc_eq_min (a b : Int) : (if a > b then b else a) = min a b := by
  rcases le_or_lt a b with h | h
  · rw [if_neg (by omega), min_eq_left h]
  · rw [if_pos h, min_eq_right (by omega)]

theorem ring_dequeue_some_nonempty {α : Type} (r r' : BindRing α) (p : α)
    (h : ring_dequeue r = (r', some p)) : ring_empty r = false := by
  by_contra hc
  have he : ring_empty r = true := by
    cases hre : ring_empty r
    · exact absurd hre hc
    · rfl
  unfold ring_dequeue at h
  rw [if_pos he] at h
  injection h with h1 h2
  simp at h2

/-- Shared unfolding of the completed `sys_recv` path: with a matched
slot and a successful dequeue, the call frees the dequeued buffer,
installs the dequeued ring, performs the three `copyout`s, and returns
`min maxlen (UDP length − UDP header size)`. -/
theorem sys_recv_full_ok (c : Nat → Bool) (s : NetState) (p : Int)
    (srcaddr sportaddr bufaddr : Nat) (maxlen : Int) (i : Nat)
    (r' : BindRing Packet) (pkt : Packet)
    (hfind : findRingIdx s.rings p = some i)
    (hdq : ring_dequeue (s.rings.getD i (mkRing ⟨0, 0, 0⟩ 0)) = (r', some pkt)) :
    sys_recv_full c s p srcaddr sportaddr bufaddr maxlen =
      ({ s with rings := s.rings.set i r', freed := s.freed ++ [pkt.buf] },
        RecvRes.ok
          (min maxlen ((ntohs2 (s.mem pkt.buf)
            (ETH_SIZE + ((s.mem pkt.buf).getD ETH_SIZE 0 &&& 0x0F) * 4 + 4) : Int) -
              (UDP_SIZE : Int)))
          [(sportaddr, le16 pkt.sport, c 0),
           (srcaddr, le32 (ntohl4 (s.mem pkt.buf) (ETH_SIZE + 12)), c 1),
           (bufaddr, ((s.mem pkt.buf).drop
              (ETH_SIZE + ((s.mem pkt.buf).getD ETH_SIZE 0 &&& 0x0F) * 4 + UDP_SIZE)).take
              (min maxlen ((ntohs2 (s.mem pkt.buf)
                (ETH_SIZE + ((s.mem pkt.buf).getD ETH_SIZE 0 &&& 0x0F) * 4 + 4) : Int) -
                  (UDP_SIZE : Int))).toNat, c 2)]) := by
  have hne := ring_dequeue_some_nonempty _ _ _ hdq
  simp only [sys_recv_full, hfind, hne, Bool.false_eq_true, if_false, hdq,
    trunc_eq_min]

/-- C3 (counterexample): an inbound IP frame whose header-length
nibble is 6 (a 24-byte IP header).  `ip_rx` reads the UDP destination
port for the delivery-queue lookup at the fixed 20-byte-header offset
(bytes 36-37, here 9000 — bytes that lie inside the IP options),
not at the offset the header-length field dictates (bytes 40-41,
here 7), refuting the claim that the lookup port is read from the
IHL-derived offset. -/
theorem C3_ip_rx_fixed_offset_counterexample :
    ipRxLookupDport
        ([0, 0, 0, 0, 0, 0, 0, 0, 0, 0, 0, 0, 0x08, 0x00, 0x46] ++
          List.replicate 19 0 ++ [0x11, 0x22, 0x23, 0x28, 0x00, 0x00, 0x00, 0x07]) = 9000 ∧
      specIhlDport
        ([0, 0, 0, 0, 0, 0, 0, 0, 0, 0, 0, 0, 0x08, 0x00, 0x46] ++
          List.replicate 19 0 ++ [0x11, 0x22, 0x23, 0x28, 0x00, 0x00, 0x00, 0x07]) = 7 ∧
      ipRxLookupDport
        ([0, 0, 0, 0, 0, 0, 0, 0, 0, 0, 0, 0, 0x08, 0x00, 0x46] ++
          List.replicate 19 0 ++ [0x11, 0x22, 0x23, 0x28, 0x00, 0x00, 0x00, 0x07]) ≠
      specIhlDport
        ([0, 0, 0, 0, 0, 0, 0, 0, 0, 0, 0, 0, 0x08, 0x00, 0x46] ++
          List.replicate 19 0 ++ [0x11, 0x22, 0x23, 0x28, 0x00, 0x00, 0x00, 0x07]) := by
  refine ⟨by decide, by decide, by decide⟩

/-- C3 (amended): `sys_recv` derives the UDP header offset from the IP
header-length field (see `sys_recv_full` and C8), but `ip_rx`'s
delivery-queue lookup overlays the UDP header at the fixed 20-byte
offset `(struct udp *)(ip + 1)`; the two offsets coincide exactly for
frames whose header-length nibble is 5 (no IP options). -/
theorem C3_udp_offset_amended (bytes : List Nat)
    (h5 : bytes.getD ETH_SIZE 0 &&& 0x0F = 5) :
    ipRxLookupDport bytes = specIhlDport bytes := by
  unfold ipRxLookupDport specIhlDport
  rw [h5]
  rfl

/-- Witness for C3 (amended) at a 42-byte option-free IP frame. -/
theorem C3_udp_offset_amended_witness :
    (([0, 0, 0, 0, 0, 0, 0, 0, 0, 0, 0, 0, 0x08, 0x00, 0x45] ++
        List.replicate 19 0 ++ [0x11, 0x22, 0x23, 0x28, 0x00, 0x00, 0x00, 0x07] :
          List Nat).getD ETH_SIZE 0 &&& 0x0F = 5) ∧
      ipRxLookupDport
        ([0, 0, 0, 0, 0, 0, 0, 0, 0, 0, 0, 0, 0x08, 0x00, 0x45] ++
          List.replicate 19 0 ++ [0x11, 0x22, 0x23, 0x28, 0x00, 0x00, 0x00, 0x07]) =
      specIhlDport
        ([0, 0, 0, 0, 0, 0, 0, 0, 0, 0, 0, 0, 0x08, 0x00, 0x45] ++
          List.replicate 19 0 ++ [0x11, 0x22, 0x23, 0x28, 0x00, 0x00, 0x00, 0x07]) :=
  ⟨by decide,
    C3_udp_offset_amended
      ([0, 0, 0, 0, 0, 0, 0, 0, 0, 0, 0, 0, 0x08, 0x00, 0x45] ++
        List.replicate 19 0 ++ [0x11, 0x22, 0x23, 0x28, 0x00, 0x00, 0x00, 0x07])
      (by decide)⟩

/-! ## ARP single-shot (C7) -/

theorem arp_rx_after_first (frames : List (Nat × List Nat)) :
    ∀ s : NetState, s.arpSeen = true →
      (arpRxAll s frames).freed = s.freed ++ frames.map Prod.fst ∧
        (arpRxAll s frames).transmitted = s.transmitted := by
  induction frames with
  | nil => intro s _; simp [arpRxAll]
  | cons f t ih =>
    intro s hs
    have hstep : arp_rx s f.1 f.2 = { s with freed := s.freed ++ [f.1] } := by
      simp [arp_rx, hs]
    have ht := ih { s with freed := s.freed ++ [f.1] } hs
    constructor
    · show (arpRxAll (arp_rx s f.1 f.2) t).freed = _
      rw [hstep, ht.1]
      simp
    · show (arpRxAll (arp_rx s f.1 f.2) t).transmitted = _
      rw [hstep, ht.2]

set_option maxHeartbeats 1600000 in
theorem mkArpReply_sha (inb : List Nat) : memSub (mkArpReply inb) 22 6 = local_mac := rfl

set_option maxHeartbeats 1600000 in
theorem mkArpReply_sip (inb : List Nat) :
    memSub (mkArpReply inb) 28 4 =
      [local_ip / 16777216, local_ip / 65536 % 256, local_ip / 256 % 256, local_ip % 256] := by
  have h : memSub (mkArpReply inb) 28 4 = [10, 0, 2, 15] := rfl
  rw [h]
  norm_num [local_ip]

set_option maxHeartbeats 1600000 in
theorem mkArpReply_op (inb : List Nat) : memSub (mkArpReply inb) 20 2 = [0, 2] := rfl

/-- C7: across any nonempty sequence of inbound ARP frames from the
initial state, exactly one reply frame is transmitted — the one
synthesized from the first frame, whose sender-hardware-address field
is the fixed local MAC and whose sender-IP field is the fixed local IP
(operation = ARP reply) — and every buffer passed to `arp_rx` is freed
by it, each exactly once. -/
theorem C7_arp_single_shot (frames : List (Nat × List Nat)) (hne : frames ≠ []) :
    (arpRxAll initNet frames).transmitted = [mkArpReply (frames.headD (0, [])).2] ∧
      (arpRxAll initNet frames).freed = frames.map Prod.fst ∧
      memSub (mkArpReply (frames.headD (0, [])).2) 22 6 = local_mac ∧
      memSub (mkArpReply (frames.headD (0, [])).2) 28 4 =
        [local_ip / 16777216, local_ip / 65536 % 256, local_ip / 256 % 256, local_ip % 256] ∧
      memSub (mkArpReply (frames.headD (0, [])).2) 20 2 = [0, 2] := by
  match frames with
  | [] => exact absurd rfl hne
  | f :: t =>
    have hfirst : arp_rx initNet f.1 f.2 =
        { initNet with arpSeen := true, transmitted := [mkArpReply f.2],
                       freed := [f.1] } := by
      simp [arp_rx, initNet]
    have ht := arp_rx_after_first t
      { initNet with arpSeen := true, transmitted := [mkArpReply f.2], freed := [f.1] } rfl
    refine ⟨?_, ?_, mkArpReply_sha _, mkArpReply_sip _, mkArpReply_op _⟩
    · show (arpRxAll (arp_rx initNet f.1 f.2) t).transmitted = _
      rw [hfirst, ht.2]
      rfl
    · show (arpRxAll (arp_rx initNet f.1 f.2) t).freed = _
      rw [hfirst, ht.1]
      simp

/-- Witness for C7: two ARP frames (ids 3 and 4). -/
theorem C7_arp_single_shot_witness :
    ([((3 : Nat), ([1, 2] : List Nat)), (4, [5, 6])] ≠ ([] : List (Nat × List Nat))) ∧
      ((arpRxAll initNet [((3 : Nat), ([1, 2] : List Nat)), (4, [5, 6])]).transmitted =
          [mkArpReply [1, 2]] ∧
        (arpRxAll initNet [((3 : Nat), ([1, 2] : List Nat)), (4, [5, 6])]).freed = [3, 4] ∧
        memSub (mkArpReply [1, 2]) 22 6 = local_mac ∧
        memSub (mkArpReply [1, 2]) 28 4 =
          [local_ip / 16777216, local_ip / 65536 % 256, local_ip / 256 % 256, local_ip % 256] ∧
        memSub (mkArpReply [1, 2]) 20 2 = [0, 2]) :=
  ⟨by decide, C7_arp_single_shot [(3, [1, 2]), (4, [5, 6])] (by decide)⟩

/-! ## The `sys_recv` contract (C8, C10) -/

/-- C8 (counterexample): on the fresh kernel state no port is bound
(every slot's port field is 0), yet `recv(0)` does not return the
failure indicator: `find_ring(0)` matches the first unused slot
(whose `dport` field is 0) and the call goes on to block on that
slot's empty queue. -/
theorem C8_port_zero_counterexample :
    (initNet.rings.all (fun r => r.dport == 0) = true) ∧
      (sys_recv_full (fun _ => true) initNet 0 0 0 0 0).2 = RecvRes.wouldBlock ∧
      (sys_recv_full (fun _ => true) initNet 0 0 0 0 0).2 ≠ RecvRes.unbound := by
  refine ⟨by decide, by decide, by decide⟩

/-- C8 (amended): `recv` on a port that no slot's port field equals
returns the failure indicator without touching any queue (note:
unused slots carry the port-field value 0, so `recv(0)` with a free
slot present matches that slot and blocks instead — see the
counterexample); `recv` on a matched port with an empty queue blocks
(sleeps); and on a matched port with a queued entry it dequeues one
packet, copies out the source port, the source IP address, and the
payload truncated to `min(maxlen, UDP length − UDP header size)`
(UDP header located at the IHL-derived offset), frees the packet
buffer exactly once, and returns exactly that truncated count. -/
theorem C8_recv_contract (c : Nat → Bool) (s : NetState) (p : Int)
    (srcaddr sportaddr bufaddr : Nat) (maxlen : Int) :
    ((∀ r ∈ s.rings, r.dport ≠ p) →
      sys_recv_full c s p srcaddr sportaddr bufaddr maxlen = (s, RecvRes.unbound)) ∧
      (∀ i, findRingIdx s.rings p = some i →
        ring_empty (s.rings.getD i (mkRing ⟨0, 0, 0⟩ 0)) = true →
        sys_recv_full c s p srcaddr sportaddr bufaddr maxlen = (s, RecvRes.wouldBlock)) ∧
      (∀ i r' pkt, findRingIdx s.rings p = some i →
        ring_dequeue (s.rings.getD i (mkRing ⟨0, 0, 0⟩ 0)) = (r', some pkt) →
        sys_recv_full c s p srcaddr sportaddr bufaddr maxlen =
          ({ s with rings := s.rings.set i r', freed := s.freed ++ [pkt.buf] },
            RecvRes.ok
              (min maxlen ((ntohs2 (s.mem pkt.buf)
                (ETH_SIZE + ((s.mem pkt.buf).getD ETH_SIZE 0 &&& 0x0F) * 4 + 4) : Int) -
                  (UDP_SIZE : Int)))
              [(sportaddr, le16 pkt.sport, c 0),
               (srcaddr, le32 (ntohl4 (s.mem pkt.buf) (ETH_SIZE + 12)), c 1),
               (bufaddr, ((s.mem pkt.buf).drop
                  (ETH_SIZE + ((s.mem pkt.buf).getD ETH_SIZE 0 &&& 0x0F) * 4 + UDP_SIZE)).take
                  (min maxlen ((ntohs2 (s.mem pkt.buf)
                    (ETH_SIZE + ((s.mem pkt.buf).getD ETH_SIZE 0 &&& 0x0F) * 4 + 4) : Int) -
                      (UDP_SIZE : Int))).toNat, c 2)])) := by
  refine ⟨?_, ?_, ?_⟩
  · intro hnone
    have hfind := findRingIdx_none s.rings p hnone
    simp only [sys_recv_full, hfind]
  · intro i hfind hempty
    simp only [sys_recv_full, hfind, hempty, if_true]
  · intro i r' pkt hfind hdq
    exact sys_recv_full_ok c s p srcaddr sportaddr bufaddr maxlen i r' pkt hfind hdq

/-- Witness for C8 on `wState`: port 9000 matches slot 0, the dequeue
yields the queued packet, and the call is the completed `ok` case. -/
theorem C8_recv_contract_witness :
    (findRingIdx wState.rings 9000 = some 0) ∧
      (ring_dequeue (wState.rings.getD 0 (mkRing ⟨0, 0, 0⟩ 0)) =
        (BindRing.mk (Function.update (fun _ => Packet.mk 0 0 0) 0 (Packet.mk 1 1234 47))
          1 1 0 9000, some (Packet.mk 1 1234 47))) ∧
      sys_recv_full (fun _ => true) wState 9000 11 22 33 100 =
        ({ wState with
            rings := wState.rings.set 0
              (BindRing.mk (Function.update (fun _ => Packet.mk 0 0 0) 0 (Packet.mk 1 1234 47))
                1 1 0 9000),
            freed := wState.freed ++ [(Packet.mk 1 1234 47).buf] },
          RecvRes.ok
            (min 100 ((ntohs2 (wState.mem (Packet.mk 1 1234 47).buf)
              (ETH_SIZE + ((wState.mem (Packet.mk 1 1234 47).buf).getD ETH_SIZE 0 &&& 0x0F) * 4
                + 4) : Int) - (UDP_SIZE : Int)))
            [(22, le16 (Packet.mk 1 1234 47).sport, true),
             (11, le32 (ntohl4 (wState.mem (Packet.mk 1 1234 47).buf) (ETH_SIZE + 12)), true),
             (33, ((wState.mem (Packet.mk 1 1234 47).buf).drop
                (ETH_SIZE + ((wState.mem (Packet.mk 1 1234 47).buf).getD ETH_SIZE 0 &&& 0x0F) * 4
                  + UDP_SIZE)).take
                (min 100 ((ntohs2 (wState.mem (Packet.mk 1 1234 47).buf)
                  (ETH_SIZE + ((wState.mem (Packet.mk 1 1234 47).buf).getD ETH_SIZE 0 &&& 0x0F)
                    * 4 + 4) : Int) - (UDP_SIZE : Int))).toNat, true)]) :=
  ⟨rfl, rfl,
    (C8_recv_contract (fun _ => true) wState 9000 11 22 33 100).2.2 0
      (BindRing.mk (Function.update (fun _ => Packet.mk 0 0 0) 0 (Packet.mk 1 1234 47))
        1 1 0 9000)
      (Packet.mk 1 1234 47) rfl rfl⟩

/-- C10: the results of the three `copyout` calls are never examined —
for any two outcome oracles (including all-failing ones) the resulting
kernel state is identical, the dequeued packet's buffer is freed
exactly once, and the call still returns the truncated payload length
`min(maxlen, UDP length − UDP header size)` rather than an error
indicator (only the recorded success flags differ). -/
theorem C10_recv_ignores_copyout_results (c c' : Nat → Bool) (s : NetState) (p : Int)
    (srcaddr sportaddr bufaddr : Nat) (maxlen : Int) (i : Nat)
    (r' : BindRing Packet) (pkt : Packet)
    (hfind : findRingIdx s.rings p = some i)
    (hdq : ring_dequeue (s.rings.getD i (mkRing ⟨0, 0, 0⟩ 0)) = (r', some pkt)) :
    (sys_recv_full c s p srcaddr sportaddr bufaddr maxlen).1 =
      (sys_recv_full c' s p srcaddr sportaddr bufaddr maxlen).1 ∧
      (sys_recv_full c s p srcaddr sportaddr bufaddr maxlen).1.freed =
        s.freed ++ [pkt.buf] ∧
      (sys_recv_full c s p srcaddr sportaddr bufaddr maxlen).2 =
        RecvRes.ok
          (min maxlen ((ntohs2 (s.mem pkt.buf)
            (ETH_SIZE + ((s.mem pkt.buf).getD ETH_SIZE 0 &&& 0x0F) * 4 + 4) : Int) -
              (UDP_SIZE : Int)))
          [(sportaddr, le16 pkt.sport, c 0),
           (srcaddr, le32 (ntohl4 (s.mem pkt.buf) (ETH_SIZE + 12)), c 1),
           (bufaddr, ((s.mem pkt.buf).drop
              (ETH_SIZE + ((s.mem pkt.buf).getD ETH_SIZE 0 &&& 0x0F) * 4 + UDP_SIZE)).take
              (min maxlen ((ntohs2 (s.mem pkt.buf)
                (ETH_SIZE + ((s.mem pkt.buf).getD ETH_SIZE 0 &&& 0x0F) * 4 + 4) : Int) -
                  (UDP_SIZE : Int))).toNat, c 2)] := by
  rw [sys_recv_full_ok c s p srcaddr sportaddr bufaddr maxlen i r' pkt hfind hdq,
    sys_recv_full_ok c' s p srcaddr sportaddr bufaddr maxlen i r' pkt hfind hdq]
  exact ⟨rfl, rfl, rfl⟩

/-- Witness for C10 on `wState` with the all-failing oracle against the
all-succeeding one. -/
theorem C10_recv_ignores_copyout_results_witness :
    (findRingIdx wState.rings 9000 = some 0) ∧
      (ring_dequeue (wState.rings.getD 0 (mkRing ⟨0, 0, 0⟩ 0)) =
        (BindRing.mk (Function.update (fun _ => Packet.mk 0 0 0) 0 (Packet.mk 1 1234 47))
          1 1 0 9000, some (Packet.mk 1 1234 47))) ∧
      ((sys_recv_full (fun _ => false) wState 9000 11 22 33 100).1 =
          (sys_recv_full (fun _ => true) wState 9000 11 22 33 100).1 ∧
        (sys_recv_full (fun _ => false) wState 9000 11 22 33 100).1.freed =
          wState.freed ++ [(Packet.mk 1 1234 47).buf] ∧
        (sys_recv_full (fun _ => false) wState 9000 11 22 33 100).2 =
          RecvRes.ok
            (min 100 ((ntohs2 (wState.mem (Packet.mk 1 1234 47).buf)
              (ETH_SIZE + ((wState.mem (Packet.mk 1 1234 47).buf).getD ETH_SIZE 0 &&& 0x0F) * 4
                + 4) : Int) - (UDP_SIZE : Int)))
            [(22, le16 (Packet.mk 1 1234 47).sport, false),
             (11, le32 (ntohl4 (wState.mem (Packet.mk 1 1234 47).buf) (ETH_SIZE + 12)), false),
             (33, ((wState.mem (Packet.mk 1 1234 47).buf).drop
                (ETH_SIZE + ((wState.mem (Packet.mk 1 1234 47).buf).getD ETH_SIZE 0 &&& 0x0F) * 4
                  + UDP_SIZE)).take
                (min 100 ((ntohs2 (wState.mem (Packet.mk 1 1234 47).buf)
                  (ETH_SIZE + ((wState.mem (Packet.mk 1 1234 47).buf).getD ETH_SIZE 0 &&& 0x0F)
                    * 4 + 4) : Int) - (UDP_SIZE : Int))).toNat, false)]) :=
  ⟨rfl, rfl,
    C10_recv_ignores_copyout_results (fun _ => false) (fun _ => true) wState 9000 11 22 33 100 0
      (BindRing.mk (Function.update (fun _ => Packet.mk 0 0 0) 0 (Packet.mk 1 1234 47))
        1 1 0 9000)
      (Packet.mk 1 1234 47) rfl rfl⟩

/-! ## The exactly-one-free discipline (C1) -/

theorem sum_map_set (f : BindRing Packet → Nat) :
    ∀ (l : List (BindRing Packet)) (i : Nat), i < l.length → ∀ r' : BindRing Packet,
      ((l.set i r').map f).sum + f (l.getD i (mkRing ⟨0, 0, 0⟩ 0)) =
        (l.map f).sum + f r' := by
  intro l
  induction l with
  | nil =>
    intro i hi
    simp at hi
  | cons a t ih =>
    intro i hi r'
    cases i with
    | zero =>
      simp [List.set]
      omega
    | succ j =>
      have hj : j < t.length := by simpa using hi
      have := ih j hj r'
      simp only [List.set, List.map_cons, List.sum_cons, List.getD_cons_succ]
      omega

theorem queuedCount_set (s s' : NetState) (i : Nat) (r' : BindRing Packet) (j : Nat)
    (hr : s'.rings = s.rings.set i r') (hi : i < s.rings.length) :
    queuedCount s' j +
        (contents (s.rings.getD i (mkRing ⟨0, 0, 0⟩ 0))).countP (fun p => p.buf == j) =
      queuedCount s j + (contents r').countP (fun p => p.buf == j) := by
  unfold queuedCount
  rw [hr]
  exact sum_map_set _ s.rings i hi r'

theorem contents_eq_nil {α : Type} (r : BindRing α) (h : r.read = r.write) :
    contents r = [] := by
  have h0 : r.write - r.read = 0 := by omega
  unfold contents
  rw [h0]
  rfl

theorem count_append_single (l : List Nat) (id j : Nat) :
    (l ++ [id]).count j = l.count j + if id = j then 1 else 0 := by
  simp [List.count_append, List.count_singleton]

theorem NetInv_free_path (s s' : NetState) (id : Nat)
    (hinv : NetInv s) (hfresh : id ∉ s.delivered)
    (hr : s'.rings = s.rings)
    (hd : s'.delivered = s.delivered ++ [id])
    (hf : s'.freed = s.freed ++ [id]) : NetInv s' := by
  obtain ⟨i1, i2, i3, i4, i5⟩ := hinv
  have hqc : ∀ j, queuedCount s' j = queuedCount s j := by
    intro j
    unfold queuedCount
    rw [hr]
  have hfc : ∀ j, s'.freed.count j = s.freed.count j + if id = j then 1 else 0 := by
    intro j
    rw [hf]
    exact count_append_single _ _ _
  refine ⟨?_, ?_, ?_, ?_, ?_⟩
  · intro r hrr
    rw [hr] at hrr
    obtain ⟨a1, a2, a3⟩ := i1 r hrr
    refine ⟨a1, a2, ?_⟩
    rw [hd]
    simp
    omega
  · intro r hrr
    rw [hr] at hrr
    exact i2 r hrr
  · rw [hd, List.nodup_append]
    refine ⟨i3, List.nodup_singleton id, ?_⟩
    intro a ha hb
    simp at hb
    subst hb
    exact hfresh ha
  · intro j hj
    rw [hd] at hj
    rcases List.mem_append.mp hj with hj | hj
    · have hne : id ≠ j := fun he => hfresh (he ▸ hj)
      rw [hfc, hqc, if_neg hne]
      have := i4 j hj
      omega
    · have hji : j = id := by simpa using hj
      subst hji
      obtain ⟨b1, b2⟩ := i5 j hfresh
      rw [hfc, hqc, if_pos rfl]
      omega
  · intro j hj
    rw [hd] at hj
    have hj1 : j ∉ s.delivered := fun h => hj (List.mem_append.mpr (Or.inl h))
    have hj2 : id ≠ j := fun he => hj (List.mem_append.mpr (Or.inr (by simp [he])))
    obtain ⟨b1, b2⟩ := i5 j hj1
    rw [hfc, hqc, if_neg hj2]
    omega

theorem NetInv_free_set_path (s s' : NetState) (id : Nat) (i : Nat) (r'' : BindRing Packet)
    (hinv : NetInv s) (hfresh : id ∉ s.delivered) (hi : i < s.rings.length)
    (hcq : contents r'' = contents (s.rings.getD i (mkRing ⟨0, 0, 0⟩ 0)))
    (hrd : r''.read = (s.rings.getD i (mkRing ⟨0, 0, 0⟩ 0)).read)
    (hwr : r''.write = (s.rings.getD i (mkRing ⟨0, 0, 0⟩ 0)).write)
    (hdp : r''.dport = (s.rings.getD i (mkRing ⟨0, 0, 0⟩ 0)).dport)
    (hr : s'.rings = s.rings.set i r'')
    (hd : s'.delivered = s.delivered ++ [id])
    (hf : s'.freed = s.freed ++ [id]) : NetInv s' := by
  obtain ⟨i1, i2, i3, i4, i5⟩ := hinv
  have hmem : s.rings.getD i (mkRing ⟨0, 0, 0⟩ 0) ∈ s.rings := by
    rw [List.getD_eq_getElem _ _ hi]
    exact List.getElem_mem hi
  have hqc : ∀ j, queuedCount s' j = queuedCount s j := by
    intro j
    have h1 := queuedCount_set s s' i r'' j hr hi
    rw [hcq] at h1
    omega
  have hfc : ∀ j, s'.freed.count j = s.freed.count j + if id = j then 1 else 0 := by
    intro j
    rw [hf]
    exact count_append_single _ _ _
  refine ⟨?_, ?_, ?_, ?_, ?_⟩
  · intro r hrr
    rw [hr] at hrr
    rcases List.mem_or_eq_of_mem_set hrr with hrr | hrr
    · obtain ⟨a1, a2, a3⟩ := i1 r hrr
      refine ⟨a1, a2, ?_⟩
      rw [hd]
      simp
      omega
    · subst hrr
      obtain ⟨a1, a2, a3⟩ := i1 _ hmem
      rw [hrd, hwr, hd]
      refine ⟨a1, a2, ?_⟩
      rw [List.length_append]
      simp only [List.length_singleton]
      omega
  · intro r hrr
    rw [hr] at hrr
    rcases List.mem_or_eq_of_mem_set hrr with hrr | hrr
    · exact i2 r hrr
    · subst hrr
      intro h0
      rw [hrd, hwr]
      exact i2 _ hmem (hdp ▸ h0)
  · rw [hd, List.nodup_append]
    refine ⟨i3, List.nodup_singleton id, ?_⟩
    intro a ha hb
    simp at hb
    subst hb
    exact hfresh ha
  · intro j hj
    rw [hd] at hj
    rcases List.mem_append.mp hj with hj | hj
    · have hne : id ≠ j := fun he => hfresh (he ▸ hj)
      rw [hfc, hqc, if_neg hne]
      have := i4 j hj
      omega
    · have hji : j = id := by simpa using hj
      subst hji
      obtain ⟨b1, b2⟩ := i5 j hfresh
      rw [hfc, hqc, if_pos rfl]
      omega
  · intro j hj
    rw [hd] at hj
    have hj1 : j ∉ s.delivered := fun h => hj (List.mem_append.mpr (Or.inl h))
    have hj2 : id ≠ j := fun he => hj (List.mem_append.mpr (Or.inr (by simp [he])))
    obtain ⟨b1, b2⟩ := i5 j hj1
    rw [hfc, hqc, if_neg hj2]
    omega

theorem NetInv_enqueue_path (s s' : NetState) (id : Nat) (i : Nat) (pkt : Packet)
    (r' : BindRing Packet)
    (hinv : NetInv s) (hfresh : id ∉ s.delivered) (hi : i < s.rings.length)
    (hpkt : pkt.buf = id)
    (hcont : contents r' = contents (s.rings.getD i (mkRing ⟨0, 0, 0⟩ 0)) ++ [pkt])
    (hrd : r'.read = (s.rings.getD i (mkRing ⟨0, 0, 0⟩ 0)).read)
    (hwr : r'.write = (s.rings.getD i (mkRing ⟨0, 0, 0⟩ 0)).write + 1)
    (hdp0 : r'.dport ≠ 0)
    (hszlt : (s.rings.getD i (mkRing ⟨0, 0, 0⟩ 0)).write -
      (s.rings.getD i (mkRing ⟨0, 0, 0⟩ 0)).read < 16)
    (hr : s'.rings = s.rings.set i r')
    (hd : s'.delivered = s.delivered ++ [id])
    (hf : s'.freed = s.freed) : NetInv s' := by
  obtain ⟨i1, i2, i3, i4, i5⟩ := hinv
  have hmem : s.rings.getD i (mkRing ⟨0, 0, 0⟩ 0) ∈ s.rings := by
    rw [List.getD_eq_getElem _ _ hi]
    exact List.getElem_mem hi
  have hqc : ∀ j, queuedCount s' j = queuedCount s j + if pkt.buf = j then 1 else 0 := by
    intro j
    have h1 := queuedCount_set s s' i r' j hr hi
    rw [hcont, List.countP_append] at h1
    by_cases hbj : pkt.buf = j
    · simp only [List.countP_cons, List.countP_nil, hbj, beq_self_eq_true, if_pos] at h1
      rw [if_pos hbj]
      omega
    · have hb : (pkt.buf == j) = false := by
        simp [hbj]
      simp only [List.countP_cons, List.countP_nil, hb, Bool.false_eq_true, if_false] at h1
      rw [if_neg hbj]
      omega
  have hfc : ∀ j, s'.freed.count j = s.freed.count j := fun j => by rw [hf]
  refine ⟨?_, ?_, ?_, ?_, ?_⟩
  · intro r hrr
    rw [hr] at hrr
    rcases List.mem_or_eq_of_mem_set hrr with hrr | hrr
    · obtain ⟨a1, a2, a3⟩ := i1 r hrr
      refine ⟨a1, a2, ?_⟩
      rw [hd, List.length_append]
      simp only [List.length_singleton]
      omega
    · subst hrr
      obtain ⟨a1, a2, a3⟩ := i1 _ hmem
      rw [hrd, hwr, hd, List.length_append]
      simp only [List.length_singleton]
      exact ⟨by omega, by omega, by omega⟩
  · intro r hrr
    rw [hr] at hrr
    rcases List.mem_or_eq_of_mem_set hrr with hrr | hrr
    · exact i2 r hrr
    · subst hrr
      intro h0
      exact absurd h0 hdp0
  · rw [hd, List.nodup_append]
    refine ⟨i3, List.nodup_singleton id, ?_⟩
    intro a ha hb
    simp at hb
    subst hb
    exact hfresh ha
  · intro j hj
    rw [hd] at hj
    rcases List.mem_append.mp hj with hj | hj
    · have hne : pkt.buf ≠ j := by
        rw [hpkt]
        exact fun he => hfresh (he ▸ hj)
      rw [hfc, hqc, if_neg hne]
      have := i4 j hj
      omega
    · have hji : j = id := by simpa using hj
      subst hji
      obtain ⟨b1, b2⟩ := i5 j hfresh
      rw [hfc, hqc, if_pos (by rw [hpkt])]
      omega
  · intro j hj
    rw [hd] at hj
    have hj1 : j ∉ s.delivered := fun h => hj (List.mem_append.mpr (Or.inl h))
    have hj2 : pkt.buf ≠ j := by
      rw [hpkt]
      exact fun he => hj (List.mem_append.mpr (Or.inr (by simp [he])))
    obtain ⟨b1, b2⟩ := i5 j hj1
    rw [hfc, hqc, if_neg hj2]
    omega

theorem NetInv_dequeue_path (s s' : NetState) (i : Nat) (pkt : Packet)
    (r' : BindRing Packet)
    (hinv : NetInv s) (hi : i < s.rings.length)
    (hcont : contents (s.rings.getD i (mkRing ⟨0, 0, 0⟩ 0)) = pkt :: contents r')
    (hrd : r'.read = (s.rings.getD i (mkRing ⟨0, 0, 0⟩ 0)).read + 1)
    (hwr : r'.write = (s.rings.getD i (mkRing ⟨0, 0, 0⟩ 0)).write)
    (hdp : r'.dport = (s.rings.getD i (mkRing ⟨0, 0, 0⟩ 0)).dport)
    (hr : s'.rings = s.rings.set i r')
    (hd : s'.delivered = s.delivered)
    (hf : s'.freed = s.freed ++ [pkt.buf]) : NetInv s' := by
  obtain ⟨i1, i2, i3, i4, i5⟩ := hinv
  have hmem : s.rings.getD i (mkRing ⟨0, 0, 0⟩ 0) ∈ s.rings := by
    rw [List.getD_eq_getElem _ _ hi]
    exact List.getElem_mem hi
  have hqc : ∀ j, queuedCount s' j + (if pkt.buf = j then 1 else 0) = queuedCount s j := by
    intro j
    have h1 := queuedCount_set s s' i r' j hr hi
    rw [hcont] at h1
    by_cases hbj : pkt.buf = j
    · simp only [List.countP_cons, hbj, beq_self_eq_true, if_pos] at h1
      rw [if_pos hbj]
      omega
    · have hb : (pkt.buf == j) = false := by
        simp [hbj]
      simp only [List.countP_cons, hb, Bool.false_eq_true, if_false] at h1
      rw [if_neg hbj]
      omega
  have hfc : ∀ j, s'.freed.count j = s.freed.count j + if pkt.buf = j then 1 else 0 := by
    intro j
    rw [hf]
    exact count_append_single _ _ _
  have hnonempty : (s.rings.getD i (mkRing ⟨0, 0, 0⟩ 0)).read <
      (s.rings.getD i (mkRing ⟨0, 0, 0⟩ 0)).write := by
    have hl := contents_length (s.rings.getD i (mkRing ⟨0, 0, 0⟩ 0))
    rw [hcont] at hl
    simp only [List.length_cons] at hl
    omega
  have hql : 1 ≤ queuedCount s pkt.buf := by
    have hle : (contents (s.rings.getD i (mkRing ⟨0, 0, 0⟩ 0))).countP
        (fun p => p.buf == pkt.buf) ≤ queuedCount s pkt.buf := by
      unfold queuedCount
      exact List.single_le_sum (fun a _ => Nat.zero_le a) _
        (List.mem_map_of_mem _ hmem)
    rw [hcont, List.countP_cons] at hle
    simp only [beq_self_eq_true, if_pos] at hle
    omega
  have hdel : pkt.buf ∈ s.delivered := by
    by_contra hnd
    have := (i5 pkt.buf hnd).2
    omega
  refine ⟨?_, ?_, ?_, ?_, ?_⟩
  · intro r hrr
    rw [hr] at hrr
    rcases List.mem_or_eq_of_mem_set hrr with hrr | hrr
    · obtain ⟨a1, a2, a3⟩ := i1 r hrr
      rw [hd]
      exact ⟨a1, a2, a3⟩
    · subst hrr
      obtain ⟨a1, a2, a3⟩ := i1 _ hmem
      rw [hrd, hwr, hd]
      exact ⟨by omega, by omega, a3⟩
  · intro r hrr
    rw [hr] at hrr
    rcases List.mem_or_eq_of_mem_set hrr with hrr | hrr
    · exact i2 r hrr
    · subst hrr
      intro h0
      have h00 := i2 _ hmem (hdp ▸ h0)
      have := contents_eq_nil _ h00
      rw [hcont] at this
      exact absurd this (by simp)
  · rw [hd]
    exact i3
  · intro j hj
    rw [hd] at hj
    by_cases hbj : pkt.buf = j
    · subst hbj
      have h4 := i4 pkt.buf hj
      have h1 := hqc pkt.buf
      have h2 := hfc pkt.buf
      rw [if_pos rfl] at h1 h2
      omega
    · have h4 := i4 j hj
      have h1 := hqc j
      have h2 := hfc j
      rw [if_neg hbj] at h1 h2
      omega
  · intro j hj
    rw [hd] at hj
    have hbj : pkt.buf ≠ j := fun he => hj (he ▸ hdel)
    obtain ⟨b1, b2⟩ := i5 j hj
    have h1 := hqc j
    have h2 := hfc j
    rw [if_neg hbj] at h1 h2
    omega

theorem NetInv_bind_path (s s' : NetState) (i : Nat) (port : Int)
    (hinv : NetInv s) (hi : i < s.rings.length)
    (hdp0 : (s.rings.getD i (mkRing ⟨0, 0, 0⟩ 0)).dport = 0)
    (hr : s'.rings = s.rings.set i (mkRing ⟨0, 0, 0⟩ port))
    (hd : s'.delivered = s.delivered)
    (hf : s'.freed = s.freed) : NetInv s' := by
  obtain ⟨i1, i2, i3, i4, i5⟩ := hinv
  have hmem : s.rings.getD i (mkRing ⟨0, 0, 0⟩ 0) ∈ s.rings := by
    rw [List.getD_eq_getElem _ _ hi]
    exact List.getElem_mem hi
  have hold : contents (s.rings.getD i (mkRing ⟨0, 0, 0⟩ 0)) = [] :=
    contents_eq_nil _ (i2 _ hmem hdp0)
  have hnew : contents (mkRing (⟨0, 0, 0⟩ : Packet) port) = [] := rfl
  have hqc : ∀ j, queuedCount s' j = queuedCount s j := by
    intro j
    have h1 := queuedCount_set s s' i (mkRing ⟨0, 0, 0⟩ port) j hr hi
    rw [hold, hnew] at h1
    simpa using h1
  refine ⟨?_, ?_, ?_, ?_, ?_⟩
  · intro r hrr
    rw [hr] at hrr
    rcases List.mem_or_eq_of_mem_set hrr with hrr | hrr
    · obtain ⟨a1, a2, a3⟩ := i1 r hrr
      rw [hd]
      exact ⟨a1, a2, a3⟩
    · subst hrr
      refine ⟨?_, ?_, ?_⟩ <;> simp [mkRing]
  · intro r hrr
    rw [hr] at hrr
    rcases List.mem_or_eq_of_mem_set hrr with hrr | hrr
    · exact i2 r hrr
    · subst hrr
      intro _
      rfl
  · rw [hd]
    exact i3
  · intro j hj
    rw [hd] at hj
    rw [hf, hqc]
    exact i4 j hj
  · intro j hj
    rw [hd] at hj
    rw [hf, hqc]
    exact i5 j hj

theorem rxIds_cons (e : Ev) (t : List Ev) : rxIds (e :: t) = rxIds [e] ++ rxIds t := by
  cases e <;> rfl

theorem netStep_preserves (s : NetState) (e : Ev)
    (hinv : NetInv s) (hgood : GoodEv e)
    (hfresh : ∀ id ∈ rxIds [e], id ∉ s.delivered)
    (hlen : s.delivered.length + 1 ≤ 2 ^ 31) :
    NetInv (netStep s e) ∧
      ((netStep s e).delivered = s.delivered ∨
        ∃ id, id ∈ rxIds [e] ∧ (netStep s e).delivered = s.delivered ++ [id]) := by
  cases hp : s.panicked with
  | true =>
    have hs : netStep s e = s := by
      unfold netStep
      rw [hp]
      rfl
    rw [hs]
    exact ⟨hinv, Or.inl rfl⟩
  | false =>
    cases e with
    | rx id bytes len =>
      have hid : id ∉ s.delivered := hfresh id (by simp [rxIds])
      have hnp : ¬ s.panicked = true := by
        rw [hp]
        exact Bool.false_ne_true
      have hs : netStep s (Ev.rx id bytes len) =
          net_rx { s with mem := Function.update s.mem id bytes,
                          delivered := s.delivered ++ [id] } id bytes len := by
        unfold netStep
        rw [if_neg hnp]
      rw [hs]
      refine ⟨?_, Or.inr ⟨id, by simp [rxIds], ?_⟩⟩
      · unfold net_rx
        split
        · -- ARP path: arp_rx frees the buffer once
          unfold arp_rx
          split
          · exact NetInv_free_path s _ id hinv hid rfl rfl rfl
          · exact NetInv_free_path s _ id hinv hid rfl rfl rfl
        · split
          · -- IP path
            rename_i harp hip
            have hport : ipRxLookupDport bytes ≠ 0 := hgood ⟨harp, hip⟩
            unfold ip_rx
            dsimp only
            match hfind : findRingIdx s.rings ((ipRxLookupDport bytes : Nat) : Int) with
            | none =>
              dsimp only
              exact NetInv_free_path s _ id hinv hid rfl rfl rfl
            | some i =>
              dsimp only
              obtain ⟨hi, hdp⟩ := findRingIdx_some s.rings _ i hfind
              have hmem : s.rings.getD i (mkRing ⟨0, 0, 0⟩ 0) ∈ s.rings := by
                rw [List.getD_eq_getElem _ _ hi]
                exact List.getElem_mem hi
              obtain ⟨w1, w2, w3⟩ := hinv.1 _ hmem
              have hwf : BindRingWf (s.rings.getD i (mkRing ⟨0, 0, 0⟩ 0)) :=
                ⟨w1, w2, by omega⟩
              by_cases hsz : (s.rings.getD i (mkRing ⟨0, 0, 0⟩ 0)).write -
                  (s.rings.getD i (mkRing ⟨0, 0, 0⟩ 0)).read = 16
              · -- queue full: enqueue drops, buffer freed once
                have henq := ring_enqueue_full (s.rings.getD i (mkRing ⟨0, 0, 0⟩ 0))
                  (⟨id, (ipRxSport bytes : Int), (len : Int)⟩ : Packet)
                  ((ring_full_wf _ hwf).mpr hsz)
                rw [henq]
                dsimp only
                rw [if_pos (by norm_num)]
                exact NetInv_free_set_path s _ id i
                  { s.rings.getD i (mkRing ⟨0, 0, 0⟩ 0) with
                    dropped := (s.rings.getD i (mkRing ⟨0, 0, 0⟩ 0)).dropped + 1 }
                  hinv hid hi
                  (contents_dropped (s.rings.getD i (mkRing ⟨0, 0, 0⟩ 0))
                    ((s.rings.getD i (mkRing ⟨0, 0, 0⟩ 0)).dropped + 1))
                  rfl rfl rfl rfl rfl rfl
              · -- room: enqueue succeeds, buffer now queued once
                have hlt : (s.rings.getD i (mkRing ⟨0, 0, 0⟩ 0)).write -
                    (s.rings.getD i (mkRing ⟨0, 0, 0⟩ 0)).read < 16 := by omega
                have henq := ring_enqueue_ok (s.rings.getD i (mkRing ⟨0, 0, 0⟩ 0))
                  (⟨id, (ipRxSport bytes : Int), (len : Int)⟩ : Packet) hwf hlt
                rw [henq]
                dsimp only
                rw [if_neg (by norm_num)]
                refine NetInv_enqueue_path s _ id i
                  (⟨id, (ipRxSport bytes : Int), (len : Int)⟩ : Packet) _ hinv hid hi rfl
                  (contents_enqueue _ _ hwf hlt) rfl rfl ?_ hlt rfl rfl rfl
                show (s.rings.getD i (mkRing ⟨0, 0, 0⟩ 0)).dport ≠ 0
                rw [hdp]
                exact_mod_cast hport
          · -- unrecognized type: freed immediately
            exact NetInv_free_path s _ id hinv hid rfl rfl rfl
      · -- delivered grows by exactly this id on every dispatch path
        unfold net_rx
        split
        · unfold arp_rx
          split <;> rfl
        · split
          · unfold ip_rx
            dsimp only
            match hfind : findRingIdx s.rings ((ipRxLookupDport bytes : Nat) : Int) with
            | none =>
              dsimp only
            | some i =>
              dsimp only
              split <;> rfl
          · rfl
    | bind port =>
      have hnp : ¬ s.panicked = true := by
        rw [hp]
        exact Bool.false_ne_true
      have hs : netStep s (Ev.bind port) = sys_bind s port := by
        unfold netStep
        rw [if_neg hnp]
      rw [hs]
      unfold sys_bind
      match hfind : nextFreeIdx s.rings with
      | none =>
        dsimp only
        exact ⟨hinv, Or.inl rfl⟩
      | some i =>
        dsimp only
        obtain ⟨hi, hdp⟩ := nextFreeIdx_some s.rings i hfind
        exact ⟨NetInv_bind_path s _ i port hinv hi hdp rfl rfl rfl, Or.inl rfl⟩
    | recv port =>
      have hnp : ¬ s.panicked = true := by
        rw [hp]
        exact Bool.false_ne_true
      have hs : netStep s (Ev.recv port) = (sys_recv_full (fun _ => true) s port 0 0 0 0).1 := by
        unfold netStep
        rw [if_neg hnp]
      rw [hs]
      unfold sys_recv_full
      match hfind : findRingIdx s.rings port with
      | none =>
        dsimp only
        exact ⟨hinv, Or.inl rfl⟩
      | some i =>
        dsimp only
        obtain ⟨hi, hdp⟩ := findRingIdx_some s.rings _ i hfind
        cases hemp : ring_empty (s.rings.getD i (mkRing ⟨0, 0, 0⟩ 0)) with
        | true =>
          exact ⟨hinv, Or.inl rfl⟩
        | false =>
          have hmem : s.rings.getD i (mkRing ⟨0, 0, 0⟩ 0) ∈ s.rings := by
            rw [List.getD_eq_getElem _ _ hi]
            exact List.getElem_mem hi
          obtain ⟨w1, w2, w3⟩ := hinv.1 _ hmem
          have hwf : BindRingWf (s.rings.getD i (mkRing ⟨0, 0, 0⟩ 0)) :=
            ⟨w1, w2, by omega⟩
          have hne : (s.rings.getD i (mkRing ⟨0, 0, 0⟩ 0)).read <
              (s.rings.getD i (mkRing ⟨0, 0, 0⟩ 0)).write := by
            have := (ring_empty_iff (s.rings.getD i (mkRing ⟨0, 0, 0⟩ 0)))
            rcases Nat.lt_or_ge (s.rings.getD i (mkRing ⟨0, 0, 0⟩ 0)).read
              (s.rings.getD i (mkRing ⟨0, 0, 0⟩ 0)).write with h | h
            · exact h
            · have heq : (s.rings.getD i (mkRing ⟨0, 0, 0⟩ 0)).write =
                  (s.rings.getD i (mkRing ⟨0, 0, 0⟩ 0)).read := by omega
              rw [this.mpr heq] at hemp
              cases hemp
          have hdq := ring_dequeue_nonempty _ hwf hne
          rw [hdq]
          dsimp only
          refine ⟨NetInv_dequeue_path s _ i _ _ hinv hi
            (contents_dequeue _ hwf hne) rfl rfl rfl rfl rfl rfl, Or.inl rfl⟩

theorem NetInv_initNet : NetInv initNet := by
  refine ⟨?_, ?_, ?_, ?_, ?_⟩
  · intro r hr
    have hr' : r ∈ List.replicate RINGS_NUM (mkRing (⟨0, 0, 0⟩ : Packet) 0) := hr
    have h : r = mkRing (⟨0, 0, 0⟩ : Packet) 0 := List.eq_of_mem_replicate hr'
    subst h
    exact ⟨by decide, by decide, by decide⟩
  · intro r hr _
    have hr' : r ∈ List.replicate RINGS_NUM (mkRing (⟨0, 0, 0⟩ : Packet) 0) := hr
    have h : r = mkRing (⟨0, 0, 0⟩ : Packet) 0 := List.eq_of_mem_replicate hr'
    subst h
    rfl
  · exact List.nodup_nil
  · intro id hid
    exact absurd hid (List.not_mem_nil id)
  · intro id _
    refine ⟨rfl, ?_⟩
    simp [queuedCount, initNet, contents_mkRing]

theorem runTrace_netInv_aux (evs : List Ev) (s : NetState)
    (hinv : NetInv s)
    (hgood : ∀ e ∈ evs, GoodEv e)
    (hnodup : (s.delivered ++ rxIds evs).Nodup)
    (hlen : s.delivered.length + (rxIds evs).length + 1 ≤ 2 ^ 31) :
    NetInv (evs.foldl netStep s) := by
  induction evs generalizing s with
  | nil => exact hinv
  | cons e t ih =>
    have hre : rxIds (e :: t) = rxIds [e] ++ rxIds t := rxIds_cons e t
    rw [hre] at hnodup hlen
    have hfresh : ∀ id ∈ rxIds [e], id ∉ s.delivered := by
      intro id hidmem hdel
      have hdisj := List.disjoint_of_nodup_append hnodup
      exact hdisj hdel (List.mem_append_left _ hidmem)
    have hlen1 : s.delivered.length + 1 ≤ 2 ^ 31 := by
      rw [List.length_append] at hlen
      omega
    obtain ⟨hinv', hdel'⟩ := netStep_preserves s e hinv
      (hgood e (List.mem_cons_self e t)) hfresh hlen1
    rw [List.foldl_cons]
    have hgood' : ∀ e' ∈ t, GoodEv e' := fun e' he' => hgood e' (List.mem_cons_of_mem _ he')
    rcases hdel' with heq | ⟨id, hidmem, heq⟩
    · refine ih (netStep s e) hinv' hgood' ?_ ?_
      · rw [heq]
        exact ((List.sublist_append_right _ _).append_left s.delivered).nodup hnodup
      · rw [heq]
        rw [List.length_append] at hlen
        omega
    · have hre1 : rxIds [e] = [id] := by
        cases e with
        | rx id' bytes len =>
          have : id = id' := List.mem_singleton.mp hidmem
          subst this
          rfl
        | bind port => exact absurd hidmem (List.not_mem_nil id)
        | recv port => exact absurd hidmem (List.not_mem_nil id)
      rw [hre1] at hnodup hlen
      refine ih (netStep s e) hinv' hgood' ?_ ?_
      · rw [heq, List.append_assoc]
        exact hnodup
      · rw [heq, List.length_append]
        rw [List.length_append, List.length_singleton] at hlen
        simp only [List.length_singleton]
        omega

theorem runTrace_netInv (evs : List Ev)
    (hgood : ∀ e ∈ evs, GoodEv e)
    (hnodup : (rxIds evs).Nodup)
    (hlen : (rxIds evs).length + 1 ≤ 2 ^ 31) :
    NetInv (runTrace evs) := by
  refine runTrace_netInv_aux evs initNet NetInv_initNet hgood ?_ ?_
  · exact hnodup
  · have h0 : initNet.delivered.length = 0 := rfl
    omega

/-- C1 counterexample: the exactly-one-release discipline fails as
stated.  The IP-path frame `cFrame` (buffer id 1) has UDP destination
port 0, so `ip_rx` queues it into the first unused slot (every unused
slot has `dport == 0`); the subsequent `bind(5, …)` claims that same
slot and resets its cursors, orphaning the buffer: id 1 was handed to
`net_rx` yet is freed zero times and no longer queued anywhere. -/
theorem C1_zero_free_counterexample :
    1 ∈ (runTrace [Ev.rx 1 cFrame 50, Ev.bind 5]).delivered ∧
      (runTrace [Ev.rx 1 cFrame 50, Ev.bind 5]).freed.count 1 = 0 ∧
      queuedCount (runTrace [Ev.rx 1 cFrame 50, Ev.bind 5]) 1 = 0 := by
  refine ⟨?_, ?_, ?_⟩ <;> decide

/-- C1 (amended): over any trace of inbound frames with distinct
buffer ids (fewer than 2^31 of them) in which no IP-path frame is
addressed to UDP destination port 0, every buffer handed to `net_rx`
is released exactly once: it is on the kfree list exactly once and in
no delivery queue, or still in exactly one queue slot awaiting
`sys_recv` and not yet freed — never zero times and never twice. -/
theorem C1_single_release_amended (evs : List Ev)
    (hgood : ∀ e ∈ evs, GoodEv e)
    (hnodup : (rxIds evs).Nodup)
    (hlen : (rxIds evs).length + 1 ≤ 2 ^ 31) :
    ∀ id ∈ (runTrace evs).delivered,
      (runTrace evs).freed.count id + queuedCount (runTrace evs) id = 1 :=
  (runTrace_netInv evs hgood hnodup hlen).2.2.2.1

/-- Witness for the amended C1 on the single-frame trace delivering
`wFrame` (buffer id 1, UDP destination port 9000, no slot bound): the
hypotheses hold and the buffer is accounted for exactly once. -/
theorem C1_single_release_amended_witness :
    (∀ e ∈ [Ev.rx 1 wFrame 50], GoodEv e) ∧
      (rxIds [Ev.rx 1 wFrame 50]).Nodup ∧
      (rxIds [Ev.rx 1 wFrame 50]).length + 1 ≤ 2 ^ 31 ∧
      ∀ id ∈ (runTrace [Ev.rx 1 wFrame 50]).delivered,
        (runTrace [Ev.rx 1 wFrame 50]).freed.count id +
          queuedCount (runTrace [Ev.rx 1 wFrame 50]) id = 1 := by
  have hg : ∀ e ∈ [Ev.rx 1 wFrame 50], GoodEv e := by
    intro e he
    rw [List.mem_singleton] at he
    subst he
    exact fun _ => by decide
  exact ⟨hg, by decide, by decide,
    C1_single_release_amended [Ev.rx 1 wFrame 50] hg (by decide) (by decide)⟩
